import Mathlib

/-! # Coraza WAF: operators, transformations, actions and configuration

A shallow embedding of the Go sources of the repository, and the properties
of them that the specification states.

Conventions of the embedding.

* A Go method with a pointer receiver becomes a function that takes the state
  it can reach and returns the state it leaves, together with its result.
* The method `FindStringSubmatch` of the standard library's `regexp` is not
  part of the repository; the value it returns is taken as a parameter.
  `strconv.ParseFloat` is embedded after `strconv/atof.go`.
* Code of the engine package that is not among the sources (macros, the
  entry points of a transaction) is taken as a parameter.
-/

namespace operators

/-! ## `operators/rx.go` -/

/-- The `rules.TransactionState` interface as `rx.Evaluate` uses it: the flag
answered by `Capturing()` and the sequence of `CaptureField(i, c)` calls
received so far, oldest first. -/
structure TransactionState where
  capturing : Bool
  captured : List (Nat × String)
  deriving DecidableEq, Repr

/-- `tx.Capturing()`. -/
def TransactionState.Capturing (tx : TransactionState) : Bool :=
  tx.capturing

/-- `tx.CaptureField(i, c)`: the call is appended to the trace. -/
def TransactionState.CaptureField (tx : TransactionState) (i : Nat) (c : String) :
    TransactionState :=
  { tx with captured := tx.captured ++ [(i, c)] }

/-- The operator `rx`. Its field `re` is the compiled regular expression,
represented by its method `FindStringSubmatch`: the empty list when the value
does not match, otherwise the whole match followed by the capture groups. -/
structure rx where
  re : String → List String

/-- The loop `for i, c := range match` of `rx.Evaluate`, entered at index `i`
with the remaining submatches: it stops at `i == 9`, before the call of
`CaptureField`. -/
def rx.captureLoop : TransactionState → Nat → List String → TransactionState
  | tx, _, [] => tx
  | tx, i, c :: rest =>
    if i == 9 then tx else rx.captureLoop (tx.CaptureField i c) (i + 1) rest

/-- `func (o *rx) Evaluate(tx rules.TransactionState, value string) bool`,
returning the boolean and the transaction state it leaves. -/
def rx.Evaluate (o : rx) (tx : TransactionState) (value : String) :
    Bool × TransactionState :=
  let submatches := o.re value
  if submatches.length == 0 then
    (false, tx)
  else if tx.Capturing then
    (true, rx.captureLoop tx 0 submatches)
  else
    (true, tx)

/-- The compiled regexp `(a)(b)(c)(d)(e)(f)(g)(h)(i)`: it matches exactly the
values that contain `abcdefghi`, and the leftmost match has the same
submatches whatever surrounds it. -/
def nineGroups : rx where
  re := fun value =>
    if "abcdefghi".toList <:+: value.toList then
      ["abcdefghi", "a", "b", "c", "d", "e", "f", "g", "h", "i"]
    else []

/-! ## `operators/ge.go` -/

/-- The values of Go's `float64` as far as comparison sees them: not-a-number,
the two infinities, and the finite values, each standing for the rational it
denotes (the two zeros denote the same rational and compare equal). -/
inductive Float64 where
  | nan : Float64
  | inf (negative : Bool) : Float64
  | finite (q : ℚ) : Float64
  deriving DecidableEq

/-- Go's `v >= d` on `float64`: false whenever an operand is not-a-number. -/
def Float64.ge : Float64 → Float64 → Bool
  | .nan, _ => false
  | _, .nan => false
  | .inf false, _ => true
  | .inf true, .inf true => true
  | .inf true, _ => false
  | .finite _, .inf true => true
  | .finite _, .inf false => false
  | .finite v, .finite d => decide (d ≤ v)

end operators

namespace strconv

/-! ## `strconv.ParseFloat`

The function of the Go standard library that `ge.go` calls, after
`strconv/atof.go`: `special`, `readFloat` and `underscoreOK` decide which
strings are well formed, and a well-formed literal is rounded to the nearest
`float64`. Strings are read as lists of characters; a character outside ASCII
stands for bytes that no test of the parser accepts. -/

open operators

/-- The two kinds of error of `ParseFloat`. -/
inductive NumError where
  | ErrSyntax
  | ErrRange
  deriving DecidableEq, Repr

/-- `lower(c)`, that is `c | ('x' - 'X')`, as a character code. -/
def lower (c : Char) : Nat :=
  c.toNat ||| 32

/-- The test `'a' <= lower(c) && lower(c) <= 'f'`. -/
def isHexLetter (c : Char) : Bool :=
  decide (97 ≤ lower c) && decide (lower c ≤ 102)

/-- `commonPrefixLenIgnoreCase(s, pre)`, for a lower-case `pre`. -/
def commonPrefixLenIgnoreCase : List Char → List Char → Nat
  | c :: s, p :: pre =>
    let c := if 'A' ≤ c ∧ c ≤ 'Z' then Char.ofNat (c.toNat + 32) else c
    if c = p then commonPrefixLenIgnoreCase s pre + 1 else 0
  | _, _ => 0

/-- The body of the case `'i', 'I'` of `special`, entered with the sign read
so far: the infinity and the rest of the string, when `s` starts with `inf`
or with `infinity`. -/
def specialInf (negative : Bool) (s : List Char) : Option (Float64 × List Char) :=
  let n := commonPrefixLenIgnoreCase s "infinity".toList
  let n := if 3 < n ∧ n < 8 then 3 else n
  if n = 3 ∨ n = 8 then some (.inf negative, s.drop n) else none

/-- `special(s)`: the special value that `s` starts with and the rest of
the string. -/
def special (s : List Char) : Option (Float64 × List Char) :=
  match s with
  | [] => none
  | c :: t =>
    if c = '+' then specialInf false t
    else if c = '-' then specialInf true t
    else if c = 'i' ∨ c = 'I' then specialInf false s
    else if c = 'n' ∨ c = 'N' then
      if commonPrefixLenIgnoreCase s "nan".toList = 3 then some (.nan, s.drop 3) else none
    else none

/-- The loop of `underscoreOK`, `saw` being the kind of the last character. -/
def underscoreLoop (hex : Bool) : Char → List Char → Bool
  | saw, [] => saw != '_'
  | saw, c :: s =>
    if c.isDigit || (hex && isHexLetter c) then underscoreLoop hex '0' s
    else if c = '_' then
      if saw != '0' then false else underscoreLoop hex '_' s
    else if saw = '_' then false
    else underscoreLoop hex '!' s

/-- `underscoreOK(s)`: every underscore of `s` stands between two digits, or
between a base prefix and a digit. -/
def underscoreOK (s : List Char) : Bool :=
  let s := match s with
    | '-' :: t => t
    | '+' :: t => t
    | _ => s
  match s with
  | '0' :: x :: t =>
    if lower x = 98 ∨ lower x = 111 ∨ lower x = 120 then
      underscoreLoop (lower x == 120) '0' t
    else underscoreLoop false '^' s
  | _ => underscoreLoop false '^' s

/-- The state of the digit loop of `readFloat`. The mantissa is kept whole:
`digits` is the number written by all the digits read, `frac` counts those
read after the point. (Go keeps the first 19 digits and a flag for the rest,
and falls back on the whole string whenever the result depends on the rest:
the value it returns is the one rounded from the whole mantissa.) -/
structure Mantissa where
  digits : Nat
  frac : Nat
  sawdot : Bool
  sawdigits : Bool
  underscores : Bool
  deriving DecidableEq, Repr

/-- One more digit `d` of a mantissa in base `base`. -/
def Mantissa.push (m : Mantissa) (base d : Nat) : Mantissa :=
  { m with digits := m.digits * base + d
           frac := if m.sawdot then m.frac + 1 else m.frac
           sawdigits := true }

/-- The digit loop of `readFloat`: underscores are skipped, one point is
accepted, and the loop stops at the first other character. -/
def readDigits (hex : Bool) : Mantissa → List Char → Mantissa × List Char
  | m, [] => (m, [])
  | m, c :: s =>
    if c = '_' then readDigits hex { m with underscores := true } s
    else if c = '.' then
      if m.sawdot then (m, c :: s) else readDigits hex { m with sawdot := true } s
    else if c.isDigit then readDigits hex (m.push (if hex then 16 else 10) (c.toNat - 48)) s
    else if hex && isHexLetter c then readDigits hex (m.push 16 (lower c - 97 + 10)) s
    else (m, c :: s)

/-- The digit loop of the exponent: `e` grows while it is below 10000. -/
def readExponent : Nat → Bool → List Char → Nat × Bool × List Char
  | e, u, [] => (e, u, [])
  | e, u, c :: s =>
    if c = '_' then readExponent e true s
    else if c.isDigit then readExponent (if e < 10000 then e * 10 + (c.toNat - 48) else e) u s
    else (e, u, c :: s)

/-- What `readFloat` reads: the sign, the base, the mantissa as a whole
number, the exponent of the base unit (10, or 2 for a hexadecimal literal),
and the part of the string that is left. The number read is
`mantissa * 10 ^ exp`, or `mantissa * 2 ^ exp`. -/
structure Literal where
  neg : Bool
  hex : Bool
  mantissa : Nat
  exp : Int
  rest : List Char
  deriving DecidableEq, Repr

/-- The end of `readFloat`: the exponent moves the point, and the
underscores met are checked on the part of the string that was read. -/
def finishFloat (s : List Char) (neg hex : Bool) (m : Mantissa) (e : Int) (underscores : Bool)
    (rest : List Char) : Option Literal :=
  if underscores && !underscoreOK (s.take (s.length - rest.length)) then none
  else some
    { neg := neg
      hex := hex
      mantissa := m.digits
      exp := e - (if hex then 4 else 1) * (m.frac : Int)
      rest := rest }

/-- `readFloat(s)`, none when it reports `ok = false`. -/
def readFloat (s : List Char) : Option Literal :=
  if s.isEmpty then none
  else
    let (neg, s1) := match s with
      | '+' :: t => (false, t)
      | '-' :: t => (true, t)
      | _ => (false, s)
    let (hex, s2) := match s1 with
      | '0' :: x :: c :: t => if lower x = 120 then (true, c :: t) else (false, s1)
      | _ => (false, s1)
    let (m, s3) := readDigits hex
      { digits := 0, frac := 0, sawdot := false, sawdigits := false, underscores := false } s2
    if !m.sawdigits then none
    else
      match s3 with
      | c :: s4 =>
        if lower c = (if hex then 112 else 101) then
          let (esign, s5) := match s4 with
            | '+' :: t => ((1 : Int), t)
            | '-' :: t => (-1, t)
            | _ => (1, s4)
          match s5 with
          | [] => none
          | d :: _ =>
            if d.isDigit then
              let (e, u, s6) := readExponent 0 m.underscores s5
              finishFloat s neg hex m (esign * e) u s6
            else none
        else if hex then none
        else finishFloat s neg hex m 0 m.underscores s3
      | [] => if hex then none else finishFloat s neg hex m 0 m.underscores []

/-- The number a literal denotes, without its sign, as a fraction. -/
def Literal.magnitude (l : Literal) : Nat × Nat :=
  let b := if l.hex then 2 else 10
  if 0 ≤ l.exp then (l.mantissa * b ^ l.exp.toNat, 1) else (l.mantissa, b ^ (-l.exp).toNat)

/-- The number of binary digits of `n`, zero for 0; the first argument bounds
the recursion and is given as `n` itself. -/
def bitLength : Nat → Nat → Nat
  | 0, _ => 0
  | fuel + 1, n => if n = 0 then 0 else bitLength fuel (n / 2) + 1

/-- The `float64` nearest to the fraction `n / d` (with `d > 0`), ties going
to the even mantissa, as the number it denotes; none when the result is
beyond the largest `float64`, that is at `2 ^ 1024` or above. With `2 ^ e <= n / d < 2 ^ (e + 1)` the spacing
of the `float64` values around `n / d` is `2 ^ q` for `q = e - 52`, and below
`2 ^ -1022` it is that of the subnormal numbers, `2 ^ -1074`; the result is
`m * 2 ^ q` for the whole number `m` nearest to `n / (d * 2 ^ q)`. -/
def nearestFloat64 (n d : Nat) : Option ℚ :=
  if n = 0 then some 0
  else
    let e0 : Int := (bitLength n n : Int) - (bitLength d d : Int)
    let below : Bool :=
      if 0 ≤ e0 then decide (n < d * 2 ^ e0.toNat) else decide (n * 2 ^ (-e0).toNat < d)
    let e : Int := if below then e0 - 1 else e0
    let q : Int := max e (-1022) - 52
    let num := if 0 ≤ q then n else n * 2 ^ (-q).toNat
    let den := if 0 ≤ q then d * 2 ^ q.toNat else d
    let m0 := num / den
    let r := num % den
    let m := if den < 2 * r then m0 + 1 else if 2 * r = den then m0 + m0 % 2 else m0
    if 0 ≤ q then
      if 1024 < (bitLength m m : Int) + q then none else some ((m * 2 ^ q.toNat : Nat) : ℚ)
    else if m % 2 ^ (-q).toNat = 0 then some ((m / 2 ^ (-q).toNat : Nat) : ℚ)
    else some (mkRat m (2 ^ (-q).toNat))

/-- The number that a well-formed literal, read to its end, denotes. -/
def exactValue (s : String) : Option ℚ :=
  match readFloat s.toList with
  | none => none
  | some l =>
    if l.rest.isEmpty then
      let x := mkRat l.magnitude.1 l.magnitude.2
      some (if l.neg then -x else x)
    else none

/-- `strconv.ParseFloat(s, 64)`: an error, on which the caller discards the
float returned with it, or the `float64` parsed. -/
def ParseFloat (s : String) : Except NumError Float64 :=
  match special s.toList with
  | some (f, rest) => if rest.isEmpty then .ok f else .error .ErrSyntax
  | none =>
    match readFloat s.toList with
    | none => .error .ErrSyntax
    | some l =>
      if l.rest.isEmpty then
        match nearestFloat64 l.magnitude.1 l.magnitude.2 with
        | none => .error .ErrRange
        | some x => .ok (.finite (if l.neg then -x else x))
      else .error .ErrSyntax

end strconv

namespace operators

/-- The environment of `ge.Evaluate` that belongs to the engine package,
which is not under `src/`: `coraza.NewMacro` and `Macro.Expand`. -/
structure Env (Macro Transaction : Type) where
  NewMacro : String → Except String Macro
  Expand : Macro → Transaction → String

/-- The operator `ge`, holding its compiled macro. -/
structure ge (Macro : Type) where
  data : Macro

/-- `func (o *ge) Init(data string) error`: the error of `NewMacro`, or the
operator with the macro stored. -/
def ge.Init {Macro Transaction : Type} (env : Env Macro Transaction) (_o : ge Macro)
    (data : String) : Except String (ge Macro) :=
  match env.NewMacro data with
  | .error err => .error err
  | .ok m => .ok { data := m }

/-- `func (o *ge) Evaluate(tx *engine.Transaction, value string) bool`. -/
def ge.Evaluate {Macro Transaction : Type} (env : Env Macro Transaction) (o : ge Macro)
    (tx : Transaction) (value : String) : Bool :=
  let v := match strconv.ParseFloat value with
    | .error _ => Float64.finite 0
    | .ok v => v
  let d := match strconv.ParseFloat (env.Expand o.data tx) with
    | .error _ => Float64.finite 0
    | .ok d => d
  v.ge d

end operators

namespace coraza

/-! ## `config.go`

The configuration types are reached through pointers, and the rule list is a
Go slice, so the methods are embedded over an explicit heap: the objects
allocated so far, addressed by their index, and the backing arrays of the rule
slices. Allocation appends to the heap. -/

/-- An address in one of the stores of the heap. -/
abbrev Ptr := Nat

/-- `type wafRule struct`. The field `rule` is a `*corazawaf.Rule`, nil or the
address of a rule that `config.go` never dereferences. -/
structure wafRule where
  rule : Option Ptr
  str : String
  file : String
  deriving DecidableEq, Repr

/-- The zero value of `wafRule`, with which `make` fills a new array. -/
def wafRule.zero : wafRule :=
  { rule := none, str := "", file := "" }

/-- The header of a `[]wafRule`: the backing array (none for the nil slice),
the length and the capacity. Every slice of `config.go` starts at the first
element of its array. -/
structure Slice where
  array : Option Ptr
  len : Nat
  cap : Nat
  deriving DecidableEq, Repr

/-- The nil slice, zero value of the field `rules`. -/
def Slice.nil : Slice :=
  { array := none, len := 0, cap := 0 }

/-- `type auditLogConfig struct`. `parts` is a `types.AuditLogParts` and
`logger` a `loggers.LogWriter` (nil or a reference); neither is inspected by
`config.go`. -/
structure auditLogConfig where
  relevantOnly : Bool
  parts : List Char
  logger : Option Ptr
  deriving DecidableEq, Repr

/-- `type wafConfig struct`, over the representation of the rule list: the
slice header `Slice` for an object in the heap, the sequence of rules for the
value the object denotes. The loggers and the file system are interface or
function values (nil or a reference) that `config.go` only stores; the
mime-type slice is stored and never written or appended to, and stands for the
sequence it denotes. -/
structure wafConfig (Rules : Type) where
  rules : Rules
  auditLog : Option Ptr
  contentInjection : Bool
  requestBodyAccess : Bool
  requestBodyLimit : Int
  requestBodyInMemoryLimit : Int
  responseBodyAccess : Bool
  responseBodyLimit : Int
  responseBodyMimeTypes : List String
  debugLogger : Option Ptr
  errorLogger : Option Ptr
  fsRoot : Option Ptr
  deriving DecidableEq, Repr

/-- The same configuration with its rule list in another representation. -/
def wafConfig.withRules {R S : Type} (c : wafConfig R) (rules : S) : wafConfig S :=
  { rules := rules
    auditLog := c.auditLog
    contentInjection := c.contentInjection
    requestBodyAccess := c.requestBodyAccess
    requestBodyLimit := c.requestBodyLimit
    requestBodyInMemoryLimit := c.requestBodyInMemoryLimit
    responseBodyAccess := c.responseBodyAccess
    responseBodyLimit := c.responseBodyLimit
    responseBodyMimeTypes := c.responseBodyMimeTypes
    debugLogger := c.debugLogger
    errorLogger := c.errorLogger
    fsRoot := c.fsRoot }

/-- The heap: the `wafConfig` objects, the `auditLogConfig` objects and the
backing arrays of rule slices, each array as long as its capacity. -/
structure Heap where
  wafConfigs : List (wafConfig Slice)
  auditLogConfigs : List auditLogConfig
  ruleArrays : List (List wafRule)
  deriving DecidableEq, Repr

/-- The heap before anything is allocated. -/
def Heap.empty : Heap :=
  { wafConfigs := [], auditLogConfigs := [], ruleArrays := [] }

/-- The elements `s[0], ..., s[len(s)-1]` of a slice. -/
def Heap.elems (h : Heap) (s : Slice) : List wafRule :=
  match s.array with
  | none => []
  | some a => ((h.ruleArrays[a]?).getD []).take s.len

/-- A slice is well formed in a heap when its array is allocated and
`len <= cap <= ` the length of the array; the nil slice has length and
capacity zero. -/
def Heap.validSlice (h : Heap) (s : Slice) : Bool :=
  match s.array with
  | none => s.len == 0 && s.cap == 0
  | some a =>
    match h.ruleArrays[a]? with
    | none => false
    | some arr => decide (s.len ≤ s.cap) && decide (s.cap ≤ arr.length)

/-- The value a `*wafConfig` denotes: its fields, with the rule list read out
of the backing array. None for a pointer that is nil or dangling. -/
def Heap.snapshot (h : Heap) (p : Ptr) : Option (wafConfig (List wafRule)) :=
  (h.wafConfigs[p]?).map fun c => c.withRules (h.elems c.rules)

/-- `make([]wafRule, n)`: a new array of `n` zero values and the slice over it. -/
def Heap.make (h : Heap) (n : Nat) : Heap × Slice :=
  ({ h with ruleArrays := h.ruleArrays ++ [List.replicate n wafRule.zero] },
   { array := some h.ruleArrays.length, len := n, cap := n })

/-- `copy(dst, src)`: the first `min(len(dst), len(src))` elements of `src`
overwrite those of `dst`. -/
def Heap.copy (h : Heap) (dst src : Slice) : Heap :=
  match dst.array with
  | none => h
  | some a =>
    match h.ruleArrays[a]? with
    | none => h
    | some arr =>
      let xs := (h.elems src).take dst.len
      { h with ruleArrays := h.ruleArrays.set a (xs ++ arr.drop xs.length) }

/-- `append(s, x)`. With room left (`len < cap`) the element is written in
place after the last one; otherwise a new array is allocated, the elements
are copied and `x` follows them. The capacity of the new array is decided by
the Go runtime: it is the needed length plus `grow cap`, for any `grow`. -/
def Heap.append (grow : Nat → Nat) (h : Heap) (s : Slice) (x : wafRule) : Heap × Slice :=
  match s.array, decide (s.len < s.cap) with
  | some a, true =>
    ({ h with ruleArrays :=
        h.ruleArrays.set a (((h.ruleArrays[a]?).getD []).set s.len x) },
     { array := some a, len := s.len + 1, cap := s.cap })
  | _, _ =>
    let extra := grow s.cap
    ({ h with ruleArrays :=
        h.ruleArrays ++ [h.elems s ++ [x] ++ List.replicate extra wafRule.zero] },
     { array := some h.ruleArrays.length, len := s.len + 1, cap := s.len + 1 + extra })

/-- An assignment `ret.field = v` through the pointer `ret`, the new fields
given by `f`; a nil or dangling pointer panics (no result), leaving the heap
as it is. The pointer is returned for the `return ret` that follows. -/
def Heap.assign (h : Heap) (ret : Ptr) (f : wafConfig Slice → wafConfig Slice) :
    Heap × Option Ptr :=
  match h.wafConfigs[ret]? with
  | none => (h, none)
  | some r => ({ h with wafConfigs := h.wafConfigs.set ret (f r) }, some ret)

/-- `func NewWAFConfig() WAFConfig`. -/
def NewWAFConfig (h : Heap) : Heap × Ptr :=
  ({ h with wafConfigs := h.wafConfigs ++
      [{ rules := Slice.nil
         auditLog := none
         contentInjection := false
         requestBodyAccess := false
         requestBodyLimit := -1
         requestBodyInMemoryLimit := -1
         responseBodyAccess := false
         responseBodyLimit := -1
         responseBodyMimeTypes := []
         debugLogger := none
         errorLogger := none
         fsRoot := none }] },
   h.wafConfigs.length)

/-- `func (c *wafConfig) clone() *wafConfig`. The result is the heap left and
the pointer returned, none when the call panics on a nil receiver. -/
def wafConfig.clone (h : Heap) (c : Ptr) : Heap × Option Ptr :=
  match h.wafConfigs[c]? with
  | none => (h, none)
  | some ret =>
    let (h1, rules) := h.make ret.rules.len
    let h2 := h1.copy rules ret.rules
    ({ h2 with wafConfigs := h2.wafConfigs ++ [ret.withRules rules] },
     some h2.wafConfigs.length)

/-- The statement `ret.rules = append(ret.rules, x)`. -/
def wafConfig.appendRule (grow : Nat → Nat) (h : Heap) (ret : Ptr) (x : wafRule) :
    Heap × Option Ptr :=
  match h.wafConfigs[ret]? with
  | none => (h, none)
  | some r =>
    let (h1, rules) := h.append grow r.rules x
    h1.assign ret fun r => r.withRules rules

/-- The loop `for _, r := range rules` of `WithRules`, and its `return ret`. -/
def wafConfig.appendRules (grow : Nat → Nat) : Heap → Ptr → List (Option Ptr) →
    Heap × Option Ptr
  | h, ret, [] => (h, some ret)
  | h, ret, r :: rest =>
    match wafConfig.appendRule grow h ret { rule := r, str := "", file := "" } with
    | (h1, none) => (h1, none)
    | (h1, some _) => wafConfig.appendRules grow h1 ret rest

/-- `func (c *wafConfig) WithRules(rules ...*corazawaf.Rule) WAFConfig`. -/
def wafConfig.WithRules (grow : Nat → Nat) (h : Heap) (c : Ptr) (rules : List (Option Ptr)) :
    Heap × Option Ptr :=
  if rules.length == 0 then
    (h, some c)
  else
    match wafConfig.clone h c with
    | (h1, none) => (h1, none)
    | (h1, some ret) => wafConfig.appendRules grow h1 ret rules

/-- `func (c *wafConfig) WithDirectivesFromFile(path string) WAFConfig`. -/
def wafConfig.WithDirectivesFromFile (grow : Nat → Nat) (h : Heap) (c : Ptr) (path : String) :
    Heap × Option Ptr :=
  match wafConfig.clone h c with
  | (h1, none) => (h1, none)
  | (h1, some ret) => wafConfig.appendRule grow h1 ret { rule := none, str := "", file := path }

/-- `func (c *wafConfig) WithDirectives(directives string) WAFConfig`. -/
def wafConfig.WithDirectives (grow : Nat → Nat) (h : Heap) (c : Ptr) (directives : String) :
    Heap × Option Ptr :=
  match wafConfig.clone h c with
  | (h1, none) => (h1, none)
  | (h1, some ret) =>
    wafConfig.appendRule grow h1 ret { rule := none, str := directives, file := "" }

/-- A value of the interface type `AuditLogConfig`: the nil interface, a
`*auditLogConfig` (itself nil or an address), or a value of another type that
implements the interface. -/
inductive AuditLogConfig where
  | nil : AuditLogConfig
  | auditLogConfig (p : Option Ptr) : AuditLogConfig
  | other : AuditLogConfig
  deriving DecidableEq, Repr

/-- `func (c *wafConfig) WithAuditLog(config AuditLogConfig) WAFConfig`. The
type assertion `config.(*auditLogConfig)` panics, after the clone, on the nil
interface and on any other dynamic type. -/
def wafConfig.WithAuditLog (h : Heap) (c : Ptr) (config : AuditLogConfig) : Heap × Option Ptr :=
  match wafConfig.clone h c with
  | (h1, none) => (h1, none)
  | (h1, some ret) =>
    match config with
    | .auditLogConfig p => h1.assign ret fun r => { r with auditLog := p }
    | _ => (h1, none)

/-- `func (c *wafConfig) WithContentInjection() WAFConfig`. -/
def wafConfig.WithContentInjection (h : Heap) (c : Ptr) : Heap × Option Ptr :=
  match wafConfig.clone h c with
  | (h1, none) => (h1, none)
  | (h1, some ret) => h1.assign ret fun r => { r with contentInjection := true }

/-- `func (c *wafConfig) WithRequestBodyAccess() WAFConfig`. -/
def wafConfig.WithRequestBodyAccess (h : Heap) (c : Ptr) : Heap × Option Ptr :=
  match wafConfig.clone h c with
  | (h1, none) => (h1, none)
  | (h1, some ret) => h1.assign ret fun r => { r with requestBodyAccess := true }

/-- `func (c *wafConfig) WithResponseBodyAccess() WAFConfig`. -/
def wafConfig.WithResponseBodyAccess (h : Heap) (c : Ptr) : Heap × Option Ptr :=
  match wafConfig.clone h c with
  | (h1, none) => (h1, none)
  | (h1, some ret) => h1.assign ret fun r => { r with responseBodyAccess := true }

/-- `func (c *wafConfig) WithDebugLogger(logger loggers.DebugLogger) WAFConfig`. -/
def wafConfig.WithDebugLogger (h : Heap) (c : Ptr) (logger : Option Ptr) : Heap × Option Ptr :=
  match wafConfig.clone h c with
  | (h1, none) => (h1, none)
  | (h1, some ret) => h1.assign ret fun r => { r with debugLogger := logger }

/-- `func (c *wafConfig) WithErrorLogger(logger corazawaf.ErrorLogCallback) WAFConfig`. -/
def wafConfig.WithErrorLogger (h : Heap) (c : Ptr) (logger : Option Ptr) : Heap × Option Ptr :=
  match wafConfig.clone h c with
  | (h1, none) => (h1, none)
  | (h1, some ret) => h1.assign ret fun r => { r with errorLogger := logger }

/-- `func (c *wafConfig) WithRootFS(fs fs.FS) WAFConfig`. -/
def wafConfig.WithRootFS (h : Heap) (c : Ptr) (fs : Option Ptr) : Heap × Option Ptr :=
  match wafConfig.clone h c with
  | (h1, none) => (h1, none)
  | (h1, some ret) => h1.assign ret fun r => { r with fsRoot := fs }

/-- `func (c *wafConfig) WithRequestBodyBytesLimit(limit int64) WAFConfig`. -/
def wafConfig.WithRequestBodyBytesLimit (h : Heap) (c : Ptr) (limit : Int) : Heap × Option Ptr :=
  match wafConfig.clone h c with
  | (h1, none) => (h1, none)
  | (h1, some ret) => h1.assign ret fun r => { r with requestBodyLimit := limit }

/-- `func (c *wafConfig) WithRequestBodyInMemoryBytesLimit(limit int64) WAFConfig`. -/
def wafConfig.WithRequestBodyInMemoryBytesLimit (h : Heap) (c : Ptr) (limit : Int) :
    Heap × Option Ptr :=
  match wafConfig.clone h c with
  | (h1, none) => (h1, none)
  | (h1, some ret) => h1.assign ret fun r => { r with requestBodyInMemoryLimit := limit }

/-- `func (c *wafConfig) WithResponseBodyBytesLimit(limit int64) WAFConfig`. -/
def wafConfig.WithResponseBodyBytesLimit (h : Heap) (c : Ptr) (limit : Int) : Heap × Option Ptr :=
  match wafConfig.clone h c with
  | (h1, none) => (h1, none)
  | (h1, some ret) => h1.assign ret fun r => { r with responseBodyLimit := limit }

/-- `func (c *wafConfig) WithResponseBodyMimeTypes(mimeTypes []string) WAFConfig`. -/
def wafConfig.WithResponseBodyMimeTypes (h : Heap) (c : Ptr) (mimeTypes : List String) :
    Heap × Option Ptr :=
  match wafConfig.clone h c with
  | (h1, none) => (h1, none)
  | (h1, some ret) => h1.assign ret fun r => { r with responseBodyMimeTypes := mimeTypes }

/-- `func NewAuditLogConfig() AuditLogConfig`: a pointer to a zero
`auditLogConfig`. -/
def NewAuditLogConfig (h : Heap) : Heap × Ptr :=
  ({ h with auditLogConfigs := h.auditLogConfigs ++
      [{ relevantOnly := false, parts := [], logger := none }] },
   h.auditLogConfigs.length)

/-- `func (c *auditLogConfig) clone() *auditLogConfig`. -/
def auditLogConfig.clone (h : Heap) (c : Ptr) : Heap × Option Ptr :=
  match h.auditLogConfigs[c]? with
  | none => (h, none)
  | some ret =>
    ({ h with auditLogConfigs := h.auditLogConfigs ++ [ret] }, some h.auditLogConfigs.length)

/-- An assignment `p.field = v` through a `*auditLogConfig`. -/
def Heap.assignAuditLog (h : Heap) (p : Ptr) (f : auditLogConfig → auditLogConfig) :
    Heap × Option Unit :=
  match h.auditLogConfigs[p]? with
  | none => (h, none)
  | some r => ({ h with auditLogConfigs := h.auditLogConfigs.set p (f r) }, some ())

/-- `func (c *auditLogConfig) LogRelevantOnly() AuditLogConfig`: the clone is
taken, the assignment goes to the receiver `c`, and the clone is returned. -/
def auditLogConfig.LogRelevantOnly (h : Heap) (c : Ptr) : Heap × Option Ptr :=
  match auditLogConfig.clone h c with
  | (h1, none) => (h1, none)
  | (h1, some ret) =>
    match h1.assignAuditLog c fun r => { r with relevantOnly := true } with
    | (h2, none) => (h2, none)
    | (h2, some _) => (h2, some ret)

/-- `func (c *auditLogConfig) WithParts(parts types.AuditLogParts) AuditLogConfig`. -/
def auditLogConfig.WithParts (h : Heap) (c : Ptr) (parts : List Char) : Heap × Option Ptr :=
  match auditLogConfig.clone h c with
  | (h1, none) => (h1, none)
  | (h1, some ret) =>
    match h1.assignAuditLog ret fun r => { r with parts := parts } with
    | (h2, none) => (h2, none)
    | (h2, some _) => (h2, some ret)

/-- `func (c *auditLogConfig) WithLogger(logger loggers.LogWriter) AuditLogConfig`. -/
def auditLogConfig.WithLogger (h : Heap) (c : Ptr) (logger : Option Ptr) : Heap × Option Ptr :=
  match auditLogConfig.clone h c with
  | (h1, none) => (h1, none)
  | (h1, some ret) =>
    match h1.assignAuditLog ret fun r => { r with logger := logger } with
    | (h2, none) => (h2, none)
    | (h2, some _) => (h2, some ret)

/-- The config at `c` is allocated and its rule slice is well formed. -/
def Heap.validConfig (h : Heap) (c : Ptr) : Bool :=
  match h.wafConfigs[c]? with
  | none => false
  | some cfg => h.validSlice cfg.rules

/-- Heap `h'` keeps what `h` holds: every `wafConfig` and every array
allocated in `h` is found in `h'` at the same address with the same contents,
and the audit log configurations are the same. -/
def Heap.preserved (h h' : Heap) : Prop :=
  (∀ p, p < h.wafConfigs.length → h'.wafConfigs[p]? = h.wafConfigs[p]?) ∧
  h'.auditLogConfigs = h.auditLogConfigs ∧
  (∀ a, a < h.ruleArrays.length → h'.ruleArrays[a]? = h.ruleArrays[a]?)

/-- The config at `c` is the same in `h'` as in `h`: the object with all its
fields (the header of the rule slice among them), the elements of its rule
list, and the audit log configuration its field `auditLog` points to. -/
def Heap.sameConfig (h h' : Heap) (c : Ptr) : Prop :=
  h'.wafConfigs[c]? = h.wafConfigs[c]? ∧
  h'.snapshot c = h.snapshot c ∧
  ∀ cfg a, h.wafConfigs[c]? = some cfg → cfg.auditLog = some a →
    h'.auditLogConfigs[a]? = h.auditLogConfigs[a]?

/-- The state of `WithRules` between two iterations, the call having started
in heap `h₀`: the original heap is kept, and the config under construction at
`ret` is a new object whose rule slice `r.rules` is well formed over a new
array. -/
structure Building (h₀ h : Heap) (ret : Ptr) (r : wafConfig Slice) : Prop where
  kept : h₀.preserved h
  fresh : h₀.wafConfigs.length ≤ ret
  obj : h.wafConfigs[ret]? = some r
  valid : h.validSlice r.rules = true
  array : ∃ a, r.rules.array = some a ∧ h₀.ruleArrays.length ≤ a

/-- A heap to run the methods on: `NewWAFConfig()` at address 0 and, at
address 1, the config returned by `WithDirectives("SecRuleEngine On")` on it,
the runtime granting no spare capacity. -/
def sampleHeap : Heap :=
  (wafConfig.WithDirectives (fun _ => 0) (NewWAFConfig Heap.empty).1 0 "SecRuleEngine On").1

/-- The value of the config at address 1 of `sampleHeap`: the defaults of
`NewWAFConfig` and the one directive. -/
def sampleValue : wafConfig (List wafRule) :=
  { rules := [{ rule := none, str := "SecRuleEngine On", file := "" }]
    auditLog := none
    contentInjection := false
    requestBodyAccess := false
    requestBodyLimit := -1
    requestBodyInMemoryLimit := -1
    responseBodyAccess := false
    responseBodyLimit := -1
    responseBodyMimeTypes := []
    debugLogger := none
    errorLogger := none
    fsRoot := none }

/-- The call whose outcome is `res` returned, without panic, a pointer at
which the heap it left holds a config that denotes `v`. -/
def returnsConfig (res : Heap × Option Ptr) (v : wafConfig (List wafRule)) : Prop :=
  ∃ ret, res.2 = some ret ∧ res.1.snapshot ret = some v

end coraza

namespace transformations

/-! ## `transformations/md5.go`

Go strings are byte sequences; `len` counts bytes. -/

/-- The hash returned by `md5.New()`, as far as `md5T` observes it: the bytes
written to it so far. -/
structure digest where
  written : List UInt8
  deriving DecidableEq, Repr

/-- `md5.New()`. -/
def md5.New : digest :=
  { written := [] }

/-- `func (d *digest) Write(p []byte) (nn int, err error)`: the bytes are
absorbed; by the contract of `hash.Hash` the error is always nil. -/
def digest.Write (d : digest) (p : List UInt8) : digest × Nat × Option String :=
  ({ written := d.written ++ p }, p.length, none)

/-- `io.WriteString(w, s)` on a writer that is a `digest`. -/
def io.WriteString (w : digest) (s : List UInt8) : digest × Nat × Option String :=
  w.Write s

/-- `h.Sum(nil)`: the checksum of the bytes written, computed by `sum`, the
MD5 function of `crypto/md5`. -/
def digest.Sum (sum : List UInt8 → List UInt8) (d : digest) : List UInt8 :=
  sum d.written

/-- `strings.WrapUnsafe(b)`: the bytes of `b` seen as a string. -/
def WrapUnsafe (b : List UInt8) : List UInt8 :=
  b

/-- `func md5T(data string) (string, error)`. -/
def md5T (sum : List UInt8 → List UInt8) (data : List UInt8) : List UInt8 × Option String :=
  if data.length == 0 then
    ([], none)
  else
    let h := md5.New
    match io.WriteString h data with
    | (_, _, some err) => (data, some err)
    | (h, _, none) => (WrapUnsafe (h.Sum sum), none)

end transformations

namespace actions

/-! ## `actions/exec.go`, `actions/log.go`, `actions/noauditlog.go` -/

/-- Modelled from the spec: the `ACTION_TYPE_*` constants of the engine
package are not under `src/`; the action types are the five of section 4.F. -/
inductive ActionType where
  | metadata
  | nondisruptive
  | disruptive
  | flow
  | data
  deriving DecidableEq, Repr

/-- Modelled from the spec: `engine.ACTION_TYPE_NONDISRUPTIVE`, the constant
for the non-disruptive type of section 4.F. -/
def ACTION_TYPE_NONDISRUPTIVE : ActionType :=
  .nondisruptive

/-- Modelled from the spec: `engine.Rule` is not under `src/`; the attributes
are those of section 3 that have a plain value, among them the flag `Log`
that `log.go` and `noauditlog.go` assign. -/
structure Rule where
  Id : Int
  Phase : Int
  Severity : Int
  Tags : List String
  Log : Bool
  AuditLog : Bool
  MultiMatch : Bool
  Capture : Bool
  deriving DecidableEq, Repr

/-- Modelled from the spec: the interruption record of section 3. -/
structure Interruption where
  Action : String
  Status : Int
  Data : String
  RuleId : Int
  deriving DecidableEq, Repr

/-- Modelled from the spec: `engine.Transaction` is not under `src/`; the
fields are those of section 3 that have a plain value: the id, the current
interruption (nullable), the capture slots, the skip counters, the current
phase and the terminal flag. -/
structure Transaction where
  Id : String
  Interruption : Option Interruption
  Captures : List (Nat × String)
  Skip : Int
  SkipAfter : String
  Phase : Int
  Terminal : Bool
  deriving DecidableEq, Repr

/-- `type Exec struct`. -/
structure Exec where
  cachedScript : String
  deriving DecidableEq, Repr

/-- `func (a *Exec) Init(r *engine.Rule, data string) error`, over the result
of `utils.OpenFile(data)`: the action, the rule and the error it leaves. -/
def Exec.Init (OpenFile : String → Except String String) (a : Exec) (r : Rule) (data : String) :
    Exec × Rule × Option String :=
  match OpenFile data with
  | .error _ => (a, r, some ("Cannot load file " ++ data))
  | .ok fdata => ({ a with cachedScript := fdata }, r, none)

/-- `func (a *Exec) Evaluate(r *engine.Rule, tx *engine.Transaction)`: the
body is empty; the action, the rule and the transaction it leaves. -/
def Exec.Evaluate (a : Exec) (r : Rule) (tx : Transaction) : Exec × Rule × Transaction :=
  (a, r, tx)

/-- `func (a *Exec) GetType() int`. -/
def Exec.GetType (_a : Exec) : ActionType :=
  ACTION_TYPE_NONDISRUPTIVE

/-- `type Log struct`. -/
structure Log where
  deriving DecidableEq, Repr

/-- `func (a *Log) Init(r *engine.Rule, data string) error`. -/
def Log.Init (a : Log) (r : Rule) (_data : String) : Log × Rule × Option String :=
  (a, { r with Log := true }, none)

/-- `func (a *Log) Evaluate(r *engine.Rule, tx *engine.Transaction)`. -/
def Log.Evaluate (a : Log) (r : Rule) (tx : Transaction) : Log × Rule × Transaction :=
  (a, r, tx)

/-- `func (a *Log) GetType() int`. -/
def Log.GetType (_a : Log) : ActionType :=
  ACTION_TYPE_NONDISRUPTIVE

/-- `type NoAuditlog struct`. -/
structure NoAuditlog where
  deriving DecidableEq, Repr

/-- `func (a *NoAuditlog) Init(r *engine.Rule, data string) error`. -/
def NoAuditlog.Init (a : NoAuditlog) (r : Rule) (_data : String) :
    NoAuditlog × Rule × Option String :=
  (a, { r with Log := false }, none)

/-- `func (a *NoAuditlog) Evaluate(r *engine.Rule, tx *engine.Transaction)`. -/
def NoAuditlog.Evaluate (a : NoAuditlog) (r : Rule) (tx : Transaction) :
    NoAuditlog × Rule × Transaction :=
  (a, r, tx)

/-- `func (a *NoAuditlog) GetType() int`. -/
def NoAuditlog.GetType (_a : NoAuditlog) : ActionType :=
  ACTION_TYPE_NONDISRUPTIVE

end actions

namespace operators

/-! ## An instance of the environment of `ge` -/

/-- An engine whose macros are their own text: what `NewMacro` and `Expand`
do on a string without `%{...}` token. -/
def literalEnv : Env String Unit where
  NewMacro := fun data => .ok data
  Expand := fun m _ => m

end operators

namespace actions

/-- A rule to run the actions on: rule 1 of phase 2, with both the `log`
and the audit log flag raised. -/
def sampleRule : Rule :=
  { Id := 1, Phase := 2, Severity := 0, Tags := [], Log := true, AuditLog := true
    MultiMatch := false, Capture := false }

end actions

namespace testing

/-! ## `testing/engine.go` -/

/-- A call of an entry point of `*engine.Transaction` made by `RunPhases`,
with its arguments. -/
inductive Call where
  | ProcessConnection (client : String) (cPort : Int) (server : String) (sPort : Int)
  | ProcessUri (uri method proto : String)
  | AddRequestHeader (k v : String)
  | ProcessRequestHeaders
  | ProcessRequestBody
  | AddResponseHeader (k v : String)
  | ProcessResponseHeaders (code : Int) (proto : String)
  | ProcessResponseBody
  | ProcessLogging
  deriving DecidableEq, Repr

/-- The `*engine.Transaction` of a test as `RunPhases` acts on it: the entry
points called on it so far, oldest first. -/
structure Transaction where
  calls : List Call
  deriving DecidableEq, Repr

/-- A call of an entry point is appended to the trace. -/
def Transaction.call (tx : Transaction) (c : Call) : Transaction :=
  { calls := tx.calls ++ [c] }

/-- The part of the engine package, which is not under `src/`, that decides
the control flow of `RunPhases`: the error (nil or a message) returned by
`ProcessRequestBody` and by `ProcessResponseBody`, given the calls the
transaction has received, this one included. -/
structure Engine where
  ProcessRequestBody : List Call → Option String
  ProcessResponseBody : List Call → Option String

/-- `type test struct`. The two header maps are given as the list of their
entries in the order in which `range` visits them; the field
`ExpectedOutput`, which `RunPhases` does not read, is left out. -/
structure test where
  waf : Option Nat
  transaction : Transaction
  magic : Bool
  name : String
  body : String
  RequestAddress : String
  RequestPort : Int
  RequestUri : String
  RequestMethod : String
  RequestProtocol : String
  RequestHeaders : List (String × String)
  ResponseHeaders : List (String × String)
  ResponseCode : Int
  ResponseProtocol : String
  ServerAddress : String
  ServerPort : Int
  deriving DecidableEq, Repr

/-- `func newTest(name string, waf *engine.Waf) *test`, for a `waf` that is
not nil, the transaction of `waf.NewTransaction()` having received no call. -/
def newTest (name : String) (waf : Nat) : test :=
  { waf := some waf
    transaction := { calls := [] }
    magic := true
    name := name
    body := ""
    RequestAddress := "127.0.0.1"
    RequestPort := 80
    RequestUri := "/"
    RequestMethod := "GET"
    RequestProtocol := "HTTP/1.1"
    RequestHeaders := []
    ResponseHeaders := []
    ResponseCode := 0
    ResponseProtocol := ""
    ServerAddress := ""
    ServerPort := 0 }

/-- `func (t *test) RunPhases() error`: the test it leaves, with the calls
made on its transaction, and the error it returns. -/
def test.RunPhases (e : Engine) (t : test) : test × Option String :=
  let tx := t.transaction.call
    (.ProcessConnection t.RequestAddress t.RequestPort t.ServerAddress t.ServerPort)
  let tx := tx.call (.ProcessUri t.RequestUri t.RequestMethod t.RequestProtocol)
  let tx := t.RequestHeaders.foldl (fun tx kv => tx.call (.AddRequestHeader kv.1 kv.2)) tx
  let tx := tx.call .ProcessRequestHeaders
  let tx := tx.call .ProcessRequestBody
  match e.ProcessRequestBody tx.calls with
  | some err => ({ t with transaction := tx }, some err)
  | none =>
    let tx := t.ResponseHeaders.foldl (fun tx kv => tx.call (.AddResponseHeader kv.1 kv.2)) tx
    let tx := tx.call (.ProcessResponseHeaders t.ResponseCode t.ResponseProtocol)
    let tx := tx.call .ProcessResponseBody
    match e.ProcessResponseBody tx.calls with
    | some err => ({ t with transaction := tx }, some err)
    | none => ({ t with transaction := tx.call .ProcessLogging }, none)

/-- The calls the transaction has received when `RunPhases` asks for the
result of `ProcessRequestBody`, that call included. -/
def test.callsAtRequestBody (t : test) : List Call :=
  t.transaction.calls ++
    [Call.ProcessConnection t.RequestAddress t.RequestPort t.ServerAddress t.ServerPort,
      Call.ProcessUri t.RequestUri t.RequestMethod t.RequestProtocol] ++
    t.RequestHeaders.map (fun kv => Call.AddRequestHeader kv.1 kv.2) ++
    [Call.ProcessRequestHeaders, Call.ProcessRequestBody]

/-- The calls the transaction has received when `RunPhases` asks for the
result of `ProcessResponseBody`, that call included. -/
def test.callsAtResponseBody (t : test) : List Call :=
  t.callsAtRequestBody ++
    t.ResponseHeaders.map (fun kv => Call.AddResponseHeader kv.1 kv.2) ++
    [Call.ProcessResponseHeaders t.ResponseCode t.ResponseProtocol, Call.ProcessResponseBody]

/-- An engine whose `ProcessRequestBody` fails, as on a read error of the
request body buffer. -/
def requestBodyFails : Engine :=
  { ProcessRequestBody := fun _ => some "request body: read error"
    ProcessResponseBody := fun _ => none }

/-- An engine whose `ProcessResponseBody` fails. -/
def responseBodyFails : Engine :=
  { ProcessRequestBody := fun _ => none
    ProcessResponseBody := fun _ => some "response body: read error" }

/-- An engine whose body phases succeed. -/
def bodiesSucceed : Engine :=
  { ProcessRequestBody := fun _ => none
    ProcessResponseBody := fun _ => none }

end testing

/-! # Properties -/

namespace operators

/-! ## `rx` -/

/-- The loop of `rx.Evaluate`, entered at an index `i <= 9`, calls
`CaptureField` on the first `9 - i` remaining submatches, numbered from `i`,
and leaves the capturing flag as it is. -/
theorem rx.captureLoop_eq (tx : TransactionState) (i : Nat) (l : List String) (hi : i ≤ 9) :
    rx.captureLoop tx i l =
      { capturing := tx.capturing
        captured := tx.captured ++ (l.take (9 - i)).enumFrom i } := by
  induction l generalizing tx i with
  | nil => simp [rx.captureLoop]
  | cons c rest ih =>
    unfold rx.captureLoop
    by_cases h9 : i = 9
    · simp [h9]
    · have hne : (i == 9) = false := by simpa using h9
      have hlt : i + 1 ≤ 9 := by omega
      have hsub : 9 - i = (9 - (i + 1)) + 1 := by omega
      simp only [hne, Bool.false_eq_true, if_false]
      rw [ih _ _ hlt, hsub]
      simp [TransactionState.CaptureField, List.take_succ_cons, List.enumFrom_cons]

/-- C1 (the code departs from the claim): with the regexp
`(a)(b)(c)(d)(e)(f)(g)(h)(i)`, whose submatches on `abcdefghi` are the whole
match and the nine groups, `rx.Evaluate` on a capturing transaction with no
capture yet returns true after calling `CaptureField` for the slots 0 to 8
only: the ninth group `i` is not recorded, and slot 9 is not written. -/
theorem rx_Evaluate_nine_groups_leaves_slot_nine_unwritten :
    nineGroups.re "abcdefghi" = ["abcdefghi", "a", "b", "c", "d", "e", "f", "g", "h", "i"] ∧
    nineGroups.Evaluate { capturing := true, captured := [] } "abcdefghi" =
      (true,
       { capturing := true
         captured := [(0, "abcdefghi"), (1, "a"), (2, "b"), (3, "c"), (4, "d"), (5, "e"),
           (6, "f"), (7, "g"), (8, "h")] }) ∧
    (9, "i") ∉ (nineGroups.Evaluate { capturing := true, captured := [] } "abcdefghi").2.captured := by
  refine ⟨by rfl, by rfl, ?_⟩
  have h : (nineGroups.Evaluate { capturing := true, captured := [] } "abcdefghi").2.captured =
      [(0, "abcdefghi"), (1, "a"), (2, "b"), (3, "c"), (4, "d"), (5, "e"),
        (6, "f"), (7, "g"), (8, "h")] := by rfl
  rw [h]
  decide

/-! ## `ge` -/

/-- The operator that `Init` returns for `d` holds the macro that `NewMacro`
compiles from `d`. -/
theorem ge.Init_data {Macro Transaction : Type} (env : Env Macro Transaction)
    (o₀ o : ge Macro) (d : String) (hinit : ge.Init env o₀ d = .ok o) :
    env.NewMacro d = .ok o.data := by
  unfold ge.Init at hinit
  cases hn : env.NewMacro d with
  | error err => simp [hn] at hinit
  | ok m =>
    simp only [hn, Except.ok.injEq] at hinit
    rw [← hinit]

/-- C2 (the claim as stated fails): `9007199254740992` and `9007199254740993`
are well-formed literals, the first number is below the second, and
`ParseFloat` rounds both to the `float64` 9007199254740992; so the operator
`ge` initialised with `"9007199254740993"` returns true on
`"9007199254740992"`, a value below its argument. -/
theorem ge_Evaluate_true_on_number_below_argument :
    strconv.exactValue "9007199254740992" = some 9007199254740992 ∧
    strconv.exactValue "9007199254740993" = some 9007199254740993 ∧
    (9007199254740992 : ℚ) < 9007199254740993 ∧
    strconv.ParseFloat "9007199254740992" = .ok (.finite 9007199254740992) ∧
    strconv.ParseFloat "9007199254740993" = .ok (.finite 9007199254740992) ∧
    ge.Init literalEnv { data := "" } "9007199254740993" =
      .ok { data := "9007199254740993" } ∧
    ge.Evaluate literalEnv { data := "9007199254740993" } () "9007199254740992" = true := by
  refine ⟨by rfl, by rfl, by norm_num, by rfl, by rfl, by rfl, by rfl⟩

/-- C2 (amended): for the operator `ge` that `Init` returns for an argument
`d` whose macro expands to `d` itself (a number holds no `%{...}` token), and
every value `v`: when `ParseFloat` rounds `d` and `v` to the finite `float64`
values `qd` and `qv`, `Evaluate` returns true on `v` if and only if
`qv >= qd`; and the operator initialised with `"2500"` returns true on
`"2800"` and on `"2500"`, false on `"2400"`. -/
theorem ge_Evaluate_true_iff_float64_ge {Macro Transaction : Type}
    (env : Env Macro Transaction) (o₀ o : ge Macro) (tx : Transaction) (d : String)
    (hinit : ge.Init env o₀ d = .ok o)
    (hself : ∀ m, env.NewMacro d = .ok m → env.Expand m tx = d) :
    (∀ (v : String) (qd qv : ℚ), strconv.ParseFloat d = .ok (.finite qd) →
        strconv.ParseFloat v = .ok (.finite qv) →
        (ge.Evaluate env o tx v = true ↔ qd ≤ qv)) ∧
    (d = "2500" →
      ge.Evaluate env o tx "2800" = true ∧ ge.Evaluate env o tx "2500" = true ∧
        ge.Evaluate env o tx "2400" = false) := by
  have hexpand : env.Expand o.data tx = d := hself o.data (ge.Init_data env o₀ o d hinit)
  have key : ∀ (v : String) (qd qv : ℚ), strconv.ParseFloat d = .ok (.finite qd) →
      strconv.ParseFloat v = .ok (.finite qv) →
      (ge.Evaluate env o tx v = true ↔ qd ≤ qv) := by
    intro v qd qv hd hv
    simp [ge.Evaluate, hexpand, hd, hv, Float64.ge]
  refine ⟨key, ?_⟩
  intro hd
  subst hd
  have h2500 : strconv.ParseFloat "2500" = .ok (.finite 2500) := by rfl
  have h2800 : strconv.ParseFloat "2800" = .ok (.finite 2800) := by rfl
  have h2400 : strconv.ParseFloat "2400" = .ok (.finite 2400) := by rfl
  refine ⟨(key _ _ _ h2500 h2800).2 (by norm_num), (key _ _ _ h2500 h2500).2 le_rfl, ?_⟩
  have hiff := key _ _ _ h2500 h2400
  cases hres : ge.Evaluate env o tx "2400" with
  | false => rfl
  | true => exact absurd (hiff.1 hres) (by norm_num)

/-- Witness of C2 (amended), with macros that are their own text: the
operator initialised with `"2500"` answers true, true, false on `"2800"`,
`"2500"`, `"2400"`; on `"-12.0"` it answers by comparing -12 with 2500, and
on `"2.5e3"`, another writing of 2500, by comparing 2500 with 2500. -/
theorem ge_Evaluate_true_iff_float64_ge_witness :
    ge.Init literalEnv { data := "" } "2500" = .ok { data := "2500" } ∧
    (ge.Evaluate literalEnv { data := "2500" } () "-12.0" = true ↔ (2500 : ℚ) ≤ -12) ∧
    (ge.Evaluate literalEnv { data := "2500" } () "2.5e3" = true ↔ (2500 : ℚ) ≤ 2500) ∧
    ge.Evaluate literalEnv { data := "2500" } () "2800" = true ∧
    ge.Evaluate literalEnv { data := "2500" } () "2500" = true ∧
    ge.Evaluate literalEnv { data := "2500" } () "2400" = false :=
  have h := ge_Evaluate_true_iff_float64_ge literalEnv { data := "" } { data := "2500" } ()
    "2500" rfl (fun m hm => by cases hm; rfl)
  ⟨rfl, h.1 "-12.0" 2500 (-12) (by rfl) (by rfl), h.1 "2.5e3" 2500 2500 (by rfl) (by rfl),
    h.2 rfl⟩

/-- C3: in `ge.Evaluate` a side that `ParseFloat` rejects counts as the number
0. When the value is rejected and the expanded argument is parsed as `d`, the
result is `0 >= d`, so for a finite `d` it is true exactly when `d <= 0`; when
the value is parsed as `v` and the expanded argument is rejected, the result
is `v >= 0`, so for a finite `v` it is true exactly when `0 <= v`; when both
are rejected the result is true. -/
theorem ge_Evaluate_unparsed_side_is_zero {Macro Transaction : Type}
    (env : Env Macro Transaction) (o : ge Macro) (tx : Transaction) (value : String) :
    (∀ (e : strconv.NumError) (d : Float64), strconv.ParseFloat value = .error e →
        strconv.ParseFloat (env.Expand o.data tx) = .ok d →
        ge.Evaluate env o tx value = (Float64.finite 0).ge d) ∧
    (∀ (e : strconv.NumError) (qd : ℚ), strconv.ParseFloat value = .error e →
        strconv.ParseFloat (env.Expand o.data tx) = .ok (.finite qd) →
        (ge.Evaluate env o tx value = true ↔ qd ≤ 0)) ∧
    (∀ (e : strconv.NumError) (v : Float64), strconv.ParseFloat value = .ok v →
        strconv.ParseFloat (env.Expand o.data tx) = .error e →
        ge.Evaluate env o tx value = v.ge (Float64.finite 0)) ∧
    (∀ (e : strconv.NumError) (qv : ℚ), strconv.ParseFloat value = .ok (.finite qv) →
        strconv.ParseFloat (env.Expand o.data tx) = .error e →
        (ge.Evaluate env o tx value = true ↔ 0 ≤ qv)) ∧
    (∀ (e e' : strconv.NumError), strconv.ParseFloat value = .error e →
        strconv.ParseFloat (env.Expand o.data tx) = .error e' →
        ge.Evaluate env o tx value = true) := by
  refine ⟨?_, ?_, ?_, ?_, ?_⟩
  · intro e d hv hd
    simp [ge.Evaluate, hv, hd]
  · intro e qd hv hd
    simp [ge.Evaluate, hv, hd, Float64.ge]
  · intro e v hv hd
    simp [ge.Evaluate, hv, hd]
  · intro e qv hv hd
    simp [ge.Evaluate, hv, hd, Float64.ge]
  · intro e e' hv hd
    simp [ge.Evaluate, hv, hd, Float64.ge]

/-- Witness of C3, with macros that are their own text. The value `"abc"` is
rejected: against the arguments `"1"`, `"0"` and `"-1"` the result is that of
`0 >= 1`, `0 >= 0` and `0 >= -1`, false, true, true. The argument `"x"` is
rejected: on the values `"-1"`, `"0"` and `"7"` the result is that of
`-1 >= 0`, `0 >= 0` and `7 >= 0`, false, true, true; on `"abc"` it is true. -/
theorem ge_Evaluate_unparsed_side_is_zero_witness :
    strconv.ParseFloat "abc" = .error .ErrSyntax ∧ strconv.ParseFloat "x" = .error .ErrSyntax ∧
    ge.Evaluate literalEnv { data := "1" } () "abc" = false ∧
    ge.Evaluate literalEnv { data := "0" } () "abc" = true ∧
    ge.Evaluate literalEnv { data := "-1" } () "abc" = true ∧
    ge.Evaluate literalEnv { data := "x" } () "-1" = false ∧
    ge.Evaluate literalEnv { data := "x" } () "0" = true ∧
    ge.Evaluate literalEnv { data := "x" } () "7" = true ∧
    ge.Evaluate literalEnv { data := "x" } () "abc" = true :=
  ⟨by rfl, by rfl,
   ((ge_Evaluate_unparsed_side_is_zero literalEnv { data := "1" } () "abc").1
      .ErrSyntax (.finite 1) (by rfl) (by rfl)).trans (by decide),
   ((ge_Evaluate_unparsed_side_is_zero literalEnv { data := "0" } () "abc").2.1
      .ErrSyntax 0 (by rfl) (by rfl)).2 le_rfl,
   ((ge_Evaluate_unparsed_side_is_zero literalEnv { data := "-1" } () "abc").2.1
      .ErrSyntax (-1) (by rfl) (by rfl)).2 (by norm_num),
   ((ge_Evaluate_unparsed_side_is_zero literalEnv { data := "x" } () "-1").2.2.1
      .ErrSyntax (.finite (-1)) (by rfl) (by rfl)).trans (by decide),
   ((ge_Evaluate_unparsed_side_is_zero literalEnv { data := "x" } () "0").2.2.2.1
      .ErrSyntax 0 (by rfl) (by rfl)).2 le_rfl,
   ((ge_Evaluate_unparsed_side_is_zero literalEnv { data := "x" } () "7").2.2.2.1
      .ErrSyntax 7 (by rfl) (by rfl)).2 (by norm_num),
   (ge_Evaluate_unparsed_side_is_zero literalEnv { data := "x" } () "abc").2.2.2.2
      .ErrSyntax .ErrSyntax (by rfl) (by rfl)⟩

end operators

namespace transformations

/-- C8: `md5T` returns a nil error on every input. -/
theorem md5T_error_is_nil (sum : List UInt8 → List UInt8) (data : List UInt8) :
    (md5T sum data).2 = none := by
  unfold md5T
  split
  · rfl
  · simp [io.WriteString, digest.Write]

end transformations

namespace actions

/-- C9: `GetType` of `log`, `noauditlog` and `exec` is
`ACTION_TYPE_NONDISRUPTIVE`, and their `Evaluate` leaves the action, every
field of the rule and every field of the transaction, its interruption among
them, as they were. -/
theorem log_noauditlog_exec_nondisruptive_no_effect (l : Log) (n : NoAuditlog) (e : Exec)
    (r : Rule) (tx : Transaction) :
    (l.GetType = ACTION_TYPE_NONDISRUPTIVE ∧ n.GetType = ACTION_TYPE_NONDISRUPTIVE ∧
      e.GetType = ACTION_TYPE_NONDISRUPTIVE) ∧
    (l.Evaluate r tx = (l, r, tx) ∧ n.Evaluate r tx = (n, r, tx) ∧
      e.Evaluate r tx = (e, r, tx)) ∧
    ((l.Evaluate r tx).2.2.Interruption = tx.Interruption ∧
      (n.Evaluate r tx).2.2.Interruption = tx.Interruption ∧
      (e.Evaluate r tx).2.2.Interruption = tx.Interruption) :=
  ⟨⟨rfl, rfl, rfl⟩, ⟨rfl, rfl, rfl⟩, ⟨rfl, rfl, rfl⟩⟩

end actions

namespace coraza

/-! ## `config.go`: slices and the heap -/

/-- Changing the representation of the rule list twice keeps the last one. -/
@[simp] theorem wafConfig.withRules_withRules {R S T : Type} (c : wafConfig R) (s : S) (t : T) :
    (c.withRules s).withRules t = c.withRules t := rfl

/-- The rule list of `withRules` is the one given. -/
@[simp] theorem wafConfig.withRules_rules {R S : Type} (c : wafConfig R) (s : S) :
    (c.withRules s).rules = s := rfl

/-- Putting back its own rule list leaves a configuration as it is. -/
@[simp] theorem wafConfig.withRules_self {R : Type} (c : wafConfig R) :
    c.withRules c.rules = c := by
  cases c; rfl

/-- A well-formed slice has as many elements as its length. -/
theorem Heap.elems_length (h : Heap) (s : Slice) (hv : h.validSlice s = true) :
    (h.elems s).length = s.len := by
  unfold Heap.validSlice at hv
  unfold Heap.elems
  cases ha : s.array with
  | none => simp [ha] at hv; simp [hv.1]
  | some a =>
    simp only [ha] at hv
    dsimp only
    cases harr : h.ruleArrays[a]? with
    | none => simp [harr] at hv
    | some arr =>
      simp only [harr, Bool.and_eq_true, decide_eq_true_eq] at hv
      simp only [Option.getD_some, List.length_take]
      omega

/-- The elements and the well-formedness of a slice depend on its array only. -/
theorem Heap.elems_congr (h h' : Heap) (s : Slice)
    (hs : ∀ a, s.array = some a → h'.ruleArrays[a]? = h.ruleArrays[a]?) :
    h'.elems s = h.elems s ∧ h'.validSlice s = h.validSlice s := by
  unfold Heap.elems Heap.validSlice
  cases ha : s.array with
  | none => simp
  | some a => simp [hs a ha]

/-- The array of a well-formed slice that is not nil is allocated. -/
theorem Heap.array_lt (h : Heap) (s : Slice) (a : Nat) (hv : h.validSlice s = true)
    (ha : s.array = some a) : a < h.ruleArrays.length := by
  unfold Heap.validSlice at hv
  simp only [ha] at hv
  cases harr : h.ruleArrays[a]? with
  | none => simp [harr] at hv
  | some arr =>
    by_contra hlt
    have hnone : h.ruleArrays[a]? = none := List.getElem?_eq_none (Nat.le_of_not_lt hlt)
    rw [hnone] at harr
    cases harr

/-- What `clone` does to a configuration with a well-formed rule slice: the
elements are copied into a new array, exactly as long as the list, and the
copy of the object, pointing to it, is allocated after the existing ones. -/
theorem wafConfig.clone_eq (h : Heap) (c : Ptr) (cfg : wafConfig Slice)
    (hc : h.wafConfigs[c]? = some cfg) (hv : h.validSlice cfg.rules = true) :
    wafConfig.clone h c =
      ({ wafConfigs := h.wafConfigs ++
           [cfg.withRules
             { array := some h.ruleArrays.length, len := cfg.rules.len, cap := cfg.rules.len }]
         auditLogConfigs := h.auditLogConfigs
         ruleArrays := h.ruleArrays ++ [h.elems cfg.rules] },
       some h.wafConfigs.length) := by
  have hlen := Heap.elems_length h cfg.rules hv
  have hpre : ∀ x : List wafRule, ({ h with ruleArrays := h.ruleArrays ++ [x] } : Heap).elems
      cfg.rules = h.elems cfg.rules := by
    intro x
    refine (Heap.elems_congr h _ cfg.rules ?_).1
    intro a ha
    have := Heap.array_lt h cfg.rules a hv ha
    simp [List.getElem?_append_left this]
  unfold wafConfig.clone
  simp only [hc, Heap.make, Heap.copy]
  simp [hpre, ← hlen]

/-- Nothing is lost by doing nothing. -/
theorem Heap.preserved_refl (h : Heap) : h.preserved h :=
  ⟨fun _ _ => rfl, rfl, fun _ _ => rfl⟩

/-- A `clone` followed by an assignment to a field of the clone: the heap
gains the copied array and the assigned copy, and keeps the rest. -/
theorem wafConfig.clone_assign_eq (h : Heap) (c : Ptr) (cfg : wafConfig Slice)
    (hc : h.wafConfigs[c]? = some cfg) (hv : h.validSlice cfg.rules = true)
    (f : wafConfig Slice → wafConfig Slice) :
    (match wafConfig.clone h c with
      | (h1, none) => (h1, none)
      | (h1, some ret) => h1.assign ret f) =
      ({ wafConfigs := h.wafConfigs ++
           [f (cfg.withRules
             { array := some h.ruleArrays.length, len := cfg.rules.len, cap := cfg.rules.len })]
         auditLogConfigs := h.auditLogConfigs
         ruleArrays := h.ruleArrays ++ [h.elems cfg.rules] },
       some h.wafConfigs.length) := by
  rw [wafConfig.clone_eq h c cfg hc hv]
  simp [Heap.assign]

/-- A heap that only gained objects and arrays keeps every valid config. -/
theorem Heap.sameConfig_of_preserved (h h' : Heap) (c : Ptr) (hp : h.preserved h')
    (hv : h.validConfig c = true) : h.sameConfig h' c := by
  unfold Heap.validConfig at hv
  cases hc : h.wafConfigs[c]? with
  | none => simp [hc] at hv
  | some cfg =>
    simp only [hc] at hv
    have hlt : c < h.wafConfigs.length := by
      by_contra hlt
      have hnone : h.wafConfigs[c]? = none := List.getElem?_eq_none (Nat.le_of_not_lt hlt)
      rw [hnone] at hc
      cases hc
    have hobj : h'.wafConfigs[c]? = h.wafConfigs[c]? := hp.1 c hlt
    have hel := (Heap.elems_congr h h' cfg.rules
      (fun a ha => hp.2.2 a (Heap.array_lt h cfg.rules a hv ha))).1
    refine ⟨hobj, ?_, ?_⟩
    · simp [Heap.snapshot, hobj, hc, hel]
    · intro _ a _ _
      rw [hp.2.1]

/-- Reading one element past a prefix of a list after writing that element. -/
theorem take_succ_set {α : Type} (l : List α) (n : Nat) (x : α) (hn : n < l.length) :
    (l.set n x).take (n + 1) = l.take n ++ [x] := by
  induction l generalizing n with
  | nil => simp at hn
  | cons y ys ih =>
    cases n with
    | zero => simp
    | succ m =>
      have hm : m < ys.length := by simpa using hn
      simp [List.set, ih m hm]

/-- One `ret.rules = append(ret.rules, x)` on a config under construction:
it does not panic, adds `x` after the elements of the rule list, and keeps the
original heap. -/
theorem wafConfig.appendRule_building (grow : Nat → Nat) (h₀ h : Heap) (ret : Ptr)
    (r : wafConfig Slice) (x : wafRule) (hb : Building h₀ h ret r) :
    ∃ h' s', wafConfig.appendRule grow h ret x = (h', some ret) ∧
      Building h₀ h' ret (r.withRules s') ∧ h'.elems s' = h.elems r.rules ++ [x] := by
  obtain ⟨hkept, hfresh, hobj, hvalid, a, ha, hLa⟩ := hb
  have halt := Heap.array_lt h r.rules a hvalid ha
  have hlen := Heap.elems_length h r.rules hvalid
  have hretlt : ret < h.wafConfigs.length := by
    by_contra hlt
    have hnone : h.wafConfigs[ret]? = none := List.getElem?_eq_none (Nat.le_of_not_lt hlt)
    rw [hnone] at hobj
    cases hobj
  obtain ⟨arr, harr⟩ : ∃ arr, h.ruleArrays[a]? = some arr := by
    rw [List.getElem?_eq_getElem halt]; exact ⟨_, rfl⟩
  have hv' := hvalid
  unfold Heap.validSlice at hv'
  simp only [ha, harr, Bool.and_eq_true, decide_eq_true_eq] at hv'
  have helems : h.elems r.rules = arr.take r.rules.len := by
    simp [Heap.elems, ha, harr]
  by_cases hroom : r.rules.len < r.rules.cap
  · -- room left: the element is written in place
    have hres : wafConfig.appendRule grow h ret x =
        ({ wafConfigs := h.wafConfigs.set ret
             (r.withRules { array := some a, len := r.rules.len + 1, cap := r.rules.cap })
           auditLogConfigs := h.auditLogConfigs
           ruleArrays := h.ruleArrays.set a (arr.set r.rules.len x) }, some ret) := by
      simp [wafConfig.appendRule, hobj, Heap.append, ha, hroom, Heap.assign, harr]
    refine ⟨_, { array := some a, len := r.rules.len + 1, cap := r.rules.cap }, hres, ?_, ?_⟩
    · refine ⟨⟨?_, hkept.2.1, ?_⟩, hfresh, ?_, ?_, ⟨a, rfl, hLa⟩⟩
      · intro p hp
        have hne : ret ≠ p := Nat.ne_of_gt (Nat.lt_of_lt_of_le hp hfresh)
        simp [List.getElem?_set_ne hne, hkept.1 p hp]
      · intro i hi
        have hne : a ≠ i := Nat.ne_of_gt (Nat.lt_of_lt_of_le hi hLa)
        simp [List.getElem?_set_ne hne, hkept.2.2 i hi]
      · simp [List.getElem?_set_self hretlt]
      · simp [Heap.validSlice, List.getElem?_set_self halt]
        omega
    · have hlt : r.rules.len < arr.length := by omega
      rw [helems]
      simp [Heap.elems, List.getElem?_set_self halt, take_succ_set arr _ x hlt]
  · -- no room: a new array is allocated
    have hres : wafConfig.appendRule grow h ret x =
        ({ wafConfigs := h.wafConfigs.set ret
             (r.withRules { array := some h.ruleArrays.length, len := r.rules.len + 1
                            cap := r.rules.len + 1 + grow r.rules.cap })
           auditLogConfigs := h.auditLogConfigs
           ruleArrays := h.ruleArrays ++
             [h.elems r.rules ++ [x] ++ List.replicate (grow r.rules.cap) wafRule.zero] },
         some ret) := by
      simp [wafConfig.appendRule, hobj, Heap.append, ha, hroom, Heap.assign]
    refine ⟨_, { array := some h.ruleArrays.length, len := r.rules.len + 1
                 cap := r.rules.len + 1 + grow r.rules.cap }, hres, ?_, ?_⟩
    · have hLh : h₀.ruleArrays.length ≤ h.ruleArrays.length := by omega
      refine ⟨⟨?_, hkept.2.1, ?_⟩, hfresh, ?_, ?_, ⟨_, rfl, hLh⟩⟩
      · intro p hp
        have hne : ret ≠ p := Nat.ne_of_gt (Nat.lt_of_lt_of_le hp hfresh)
        simp [List.getElem?_set_ne hne, hkept.1 p hp]
      · intro i hi
        have hi' : i < h.ruleArrays.length := by omega
        simp [List.getElem?_append_left hi', hkept.2.2 i hi]
      · simp [List.getElem?_set_self hretlt]
      · simp only [Heap.validSlice, wafConfig.withRules_rules, List.getElem?_concat_length,
          List.length_append, List.length_replicate, List.length_singleton, hlen,
          Bool.and_eq_true, decide_eq_true_eq]
        omega
    · have htake : (h.elems r.rules ++ [x] ++
          List.replicate (grow r.rules.cap) wafRule.zero).take (r.rules.len + 1) =
          h.elems r.rules ++ [x] := by
        rw [List.take_append_of_le_length (by simp [hlen])]
        exact List.take_of_length_le (by simp [hlen])
      simp only [Heap.elems, List.getElem?_concat_length, Option.getD_some]
      exact htake

end coraza

namespace coraza

/-- The loop of `WithRules` on a config under construction: it does not
panic, adds one entry `wafRule{rule: r}` per argument, in order, after the
elements of the rule list, and keeps the original heap. -/
theorem wafConfig.appendRules_building (grow : Nat → Nat) (h₀ : Heap) (ret : Ptr)
    (rs : List (Option Ptr)) :
    ∀ (h : Heap) (r : wafConfig Slice), Building h₀ h ret r →
      ∃ h' s', wafConfig.appendRules grow h ret rs = (h', some ret) ∧
        Building h₀ h' ret (r.withRules s') ∧
        h'.elems s' = h.elems r.rules ++
          rs.map (fun p => ({ rule := p, str := "", file := "" } : wafRule)) := by
  induction rs with
  | nil =>
    intro h r hb
    refine ⟨h, r.rules, rfl, ?_, by simp⟩
    simpa using hb
  | cons p rest ih =>
    intro h r hb
    obtain ⟨h1, s1, hstep, hb1, hel1⟩ :=
      wafConfig.appendRule_building grow h₀ h ret r { rule := p, str := "", file := "" } hb
    obtain ⟨h2, s2, hloop, hb2, hel2⟩ := ih h1 (r.withRules s1) hb1
    refine ⟨h2, s2, ?_, ?_, ?_⟩
    · simp [wafConfig.appendRules, hstep, hloop]
    · simpa using hb2
    · rw [hel2]
      simp [hel1]

/-- After `clone` the copy is a config under construction whose rule list has
the elements of the original. -/
theorem wafConfig.clone_building (h : Heap) (c : Ptr) (cfg : wafConfig Slice)
    (hc : h.wafConfigs[c]? = some cfg) (hv : h.validSlice cfg.rules = true) :
    ∃ h1 s0, wafConfig.clone h c = (h1, some h.wafConfigs.length) ∧
      Building h h1 h.wafConfigs.length (cfg.withRules s0) ∧
      h1.elems s0 = h.elems cfg.rules := by
  have hlen := Heap.elems_length h cfg.rules hv
  refine ⟨_, { array := some h.ruleArrays.length, len := cfg.rules.len, cap := cfg.rules.len },
    wafConfig.clone_eq h c cfg hc hv,
    ⟨⟨?_, rfl, ?_⟩, le_rfl, ?_, ?_, ⟨h.ruleArrays.length, rfl, le_rfl⟩⟩, ?_⟩
  · intro p hp
    simp [List.getElem?_append_left hp]
  · intro a ha
    simp [List.getElem?_append_left ha]
  · simp
  · simp [Heap.validSlice, hlen]
  · simp only [Heap.elems, List.getElem?_concat_length, Option.getD_some]
    exact List.take_of_length_le (le_of_eq hlen)

/-- The config under construction denotes its fields with the elements of its
rule slice. -/
theorem Building.snapshot_eq {h₀ h : Heap} {ret : Ptr} {r : wafConfig Slice}
    (hb : Building h₀ h ret r) : h.snapshot ret = some (r.withRules (h.elems r.rules)) := by
  simp [Heap.snapshot, hb.obj]

end coraza

namespace coraza

/-- A valid config is an allocated object with a well-formed rule slice. -/
theorem Heap.validConfig_obj (h : Heap) (c : Ptr) (hv : h.validConfig c = true) :
    ∃ cfg, h.wafConfigs[c]? = some cfg ∧ h.validSlice cfg.rules = true := by
  unfold Heap.validConfig at hv
  cases hc : h.wafConfigs[c]? with
  | none => simp [hc] at hv
  | some cfg => exact ⟨cfg, rfl, by simpa [hc] using hv⟩

/-- A setter that clones and assigns one field other than `rules`: it returns
a new config, keeps the heap it found, and the new config denotes the value of
the old one with the field assigned (`g` is the assignment `f` on values). -/
theorem wafConfig.clone_assign_spec (h : Heap) (c : Ptr) (cfg : wafConfig Slice)
    (hc : h.wafConfigs[c]? = some cfg) (hv : h.validSlice cfg.rules = true)
    (f : wafConfig Slice → wafConfig Slice)
    (g : wafConfig (List wafRule) → wafConfig (List wafRule))
    (hf : ∀ x, (f x).rules = x.rules)
    (hfg : ∀ x (E : List wafRule), (f x).withRules E = g (x.withRules E)) :
    ∃ h', (match wafConfig.clone h c with
        | (h1, none) => (h1, none)
        | (h1, some ret) => h1.assign ret f) = (h', some h.wafConfigs.length) ∧
      h.preserved h' ∧
      h'.snapshot h.wafConfigs.length = some (g (cfg.withRules (h.elems cfg.rules))) := by
  have hlen := Heap.elems_length h cfg.rules hv
  refine ⟨_, wafConfig.clone_assign_eq h c cfg hc hv f, ⟨?_, rfl, ?_⟩, ?_⟩
  · intro p hp
    simp [List.getElem?_append_left hp]
  · intro a ha
    simp [List.getElem?_append_left ha]
  · have hel : ∀ W : List (wafConfig Slice),
        ({ wafConfigs := W, auditLogConfigs := h.auditLogConfigs,
           ruleArrays := h.ruleArrays ++ [h.elems cfg.rules] } : Heap).elems
          { array := some h.ruleArrays.length, len := cfg.rules.len, cap := cfg.rules.len } =
        h.elems cfg.rules := by
      intro W
      simp only [Heap.elems, List.getElem?_concat_length, Option.getD_some]
      exact List.take_of_length_le (le_of_eq hlen)
    simp only [Heap.snapshot, List.getElem?_concat_length, Option.map_some', hf,
      wafConfig.withRules_rules, hel, hfg, wafConfig.withRules_withRules]

/-- The heap left by `clone` keeps the heap it found. -/
theorem wafConfig.clone_preserved (h : Heap) (c : Ptr) : h.preserved (wafConfig.clone h c).1 := by
  unfold wafConfig.clone
  cases hc : h.wafConfigs[c]? with
  | none => exact Heap.preserved_refl h
  | some cfg =>
    simp only [Heap.make, Heap.copy, List.getElem?_concat_length]
    refine ⟨?_, rfl, ?_⟩
    · intro p hp
      simp [List.getElem?_append_left hp]
    · intro a ha
      simp [List.getElem?_append_left ha]

end coraza

namespace coraza

/-! ## `config.go`: the `WithXXX` methods -/

/-- The methods that append to the rule list keep the heap they found. -/
theorem wafConfig.appendRule_after_clone (grow : Nat → Nat) (h : Heap) (c : Ptr)
    (cfg : wafConfig Slice) (hc : h.wafConfigs[c]? = some cfg)
    (hv : h.validSlice cfg.rules = true) (x : wafRule) :
    ∃ h', (match wafConfig.clone h c with
        | (h1, none) => (h1, none)
        | (h1, some ret) => wafConfig.appendRule grow h1 ret x) =
          (h', some h.wafConfigs.length) ∧
      h.preserved h' ∧
      h'.snapshot h.wafConfigs.length =
        some (cfg.withRules (h.elems cfg.rules ++ [x])) := by
  obtain ⟨h1, s0, hclone, hb, hel⟩ := wafConfig.clone_building h c cfg hc hv
  obtain ⟨h2, s2, hstep, hb2, hel2⟩ :=
    wafConfig.appendRule_building grow h h1 h.wafConfigs.length (cfg.withRules s0) x hb
  refine ⟨h2, ?_, hb2.kept, ?_⟩
  · simp [hclone, hstep]
  · rw [hb2.snapshot_eq]
    simp [hel2, hel]

/-- `WithRules` with at least one argument: a new config is returned whose
rule list is the old one followed by the new entries, and the heap found is
kept. -/
theorem wafConfig.WithRules_spec (grow : Nat → Nat) (h : Heap) (c : Ptr)
    (cfg : wafConfig Slice) (hc : h.wafConfigs[c]? = some cfg)
    (hv : h.validSlice cfg.rules = true) (rules : List (Option Ptr)) (hne : rules ≠ []) :
    ∃ h', wafConfig.WithRules grow h c rules = (h', some h.wafConfigs.length) ∧
      h.preserved h' ∧
      h'.snapshot h.wafConfigs.length =
        some (cfg.withRules (h.elems cfg.rules ++
          rules.map (fun p => ({ rule := p, str := "", file := "" } : wafRule)))) := by
  obtain ⟨h1, s0, hclone, hb, hel⟩ := wafConfig.clone_building h c cfg hc hv
  obtain ⟨h2, s2, hloop, hb2, hel2⟩ :=
    wafConfig.appendRules_building grow h h.wafConfigs.length rules h1 (cfg.withRules s0) hb
  refine ⟨h2, ?_, hb2.kept, ?_⟩
  · have hlen : (rules.length == 0) = false := by
      cases rules with
      | nil => exact absurd rfl hne
      | cons _ _ => rfl
    simp [wafConfig.WithRules, hlen, hclone, hloop]
  · rw [hb2.snapshot_eq]
    simp [hel2, hel]

/-- C4: no `WithXXX` method changes the config it is called on. For every
heap and every valid `*wafConfig` `c` in it, after each of the fourteen
methods, called with any argument (also one on which the call panics), the
object at `c` has the same fields, its rule list has the same elements and
length, and the audit log configuration it points to is the same. -/
theorem wafConfig_With_leaves_receiver_unchanged (grow : Nat → Nat) (h : Heap) (c : Ptr)
    (hv : h.validConfig c = true) :
    (∀ rules, h.sameConfig (wafConfig.WithRules grow h c rules).1 c) ∧
    (∀ directives, h.sameConfig (wafConfig.WithDirectives grow h c directives).1 c) ∧
    (∀ path, h.sameConfig (wafConfig.WithDirectivesFromFile grow h c path).1 c) ∧
    (∀ config, h.sameConfig (wafConfig.WithAuditLog h c config).1 c) ∧
    h.sameConfig (wafConfig.WithContentInjection h c).1 c ∧
    h.sameConfig (wafConfig.WithRequestBodyAccess h c).1 c ∧
    (∀ limit, h.sameConfig (wafConfig.WithRequestBodyBytesLimit h c limit).1 c) ∧
    (∀ limit, h.sameConfig (wafConfig.WithRequestBodyInMemoryBytesLimit h c limit).1 c) ∧
    h.sameConfig (wafConfig.WithResponseBodyAccess h c).1 c ∧
    (∀ limit, h.sameConfig (wafConfig.WithResponseBodyBytesLimit h c limit).1 c) ∧
    (∀ mimeTypes, h.sameConfig (wafConfig.WithResponseBodyMimeTypes h c mimeTypes).1 c) ∧
    (∀ logger, h.sameConfig (wafConfig.WithDebugLogger h c logger).1 c) ∧
    (∀ logger, h.sameConfig (wafConfig.WithErrorLogger h c logger).1 c) ∧
    (∀ fs, h.sameConfig (wafConfig.WithRootFS h c fs).1 c) := by
  obtain ⟨cfg, hc, hs⟩ := Heap.validConfig_obj h c hv
  have same : ∀ h', h.preserved h' → h.sameConfig h' c :=
    fun h' hp => Heap.sameConfig_of_preserved h h' c hp hv
  have setter : ∀ f : wafConfig Slice → wafConfig Slice,
      h.preserved (match wafConfig.clone h c with
        | (h1, none) => (h1, none)
        | (h1, some ret) => h1.assign ret f).1 := by
    intro f
    rw [wafConfig.clone_assign_eq h c cfg hc hs f]
    refine ⟨?_, rfl, ?_⟩
    · intro p hp
      simp [List.getElem?_append_left hp]
    · intro a ha
      simp [List.getElem?_append_left ha]
  have adder : ∀ x : wafRule,
      h.preserved (match wafConfig.clone h c with
        | (h1, none) => (h1, none)
        | (h1, some ret) => wafConfig.appendRule grow h1 ret x).1 := by
    intro x
    obtain ⟨h', he, hp, _⟩ := wafConfig.appendRule_after_clone grow h c cfg hc hs x
    rw [he]
    exact hp
  refine ⟨?_, fun d => same _ (adder _), fun p => same _ (adder _), ?_, same _ (setter _),
    same _ (setter _), fun n => same _ (setter _), fun n => same _ (setter _),
    same _ (setter _), fun n => same _ (setter _), fun m => same _ (setter _),
    fun l => same _ (setter _), fun l => same _ (setter _), fun f => same _ (setter _)⟩
  · intro rules
    by_cases hne : rules = []
    · subst hne
      exact same _ (Heap.preserved_refl h)
    · obtain ⟨h', he, hp, _⟩ := wafConfig.WithRules_spec grow h c cfg hc hs rules hne
      rw [he]
      exact same _ hp
  · intro config
    cases config with
    | auditLogConfig p => exact same _ (setter _)
    | nil =>
      have hcl := wafConfig.clone_eq h c cfg hc hs
      have hp := wafConfig.clone_preserved h c
      simp only [wafConfig.WithAuditLog, hcl] at hp ⊢
      exact same _ hp
    | other =>
      have hcl := wafConfig.clone_eq h c cfg hc hs
      have hp := wafConfig.clone_preserved h c
      simp only [wafConfig.WithAuditLog, hcl] at hp ⊢
      exact same _ hp

end coraza

namespace coraza

/-- Witness of C4 on `sampleHeap`: the config at address 1 is valid and is the
same after `WithRules` with two rules, after `WithAuditLog` with a foreign
implementation (a panic), and after `WithRequestBodyBytesLimit(1024)`. -/
theorem wafConfig_With_leaves_receiver_unchanged_witness :
    sampleHeap.validConfig 1 = true ∧
    sampleHeap.sameConfig (wafConfig.WithRules (fun _ => 0) sampleHeap 1 [some 7, none]).1 1 ∧
    sampleHeap.sameConfig (wafConfig.WithAuditLog sampleHeap 1 AuditLogConfig.other).1 1 ∧
    sampleHeap.sameConfig (wafConfig.WithRequestBodyBytesLimit sampleHeap 1 1024).1 1 :=
  have h := wafConfig_With_leaves_receiver_unchanged (fun _ => 0) sampleHeap 1 (by decide)
  ⟨by decide, h.1 _, h.2.2.2.1 _, h.2.2.2.2.2.2.1 _⟩

/-- C5: each single-field setter returns a config that differs from the
receiver in the named field only. For every heap and valid `*wafConfig` `c`
denoting `v` (its fields and the elements of its rule list), each setter
returns a pointer to a config that denotes `v` with the named field replaced
by the argument, or by true for the three switches; `WithAuditLog` is called
with a `*auditLogConfig`, the type the field holds. -/
theorem wafConfig_setter_changes_only_its_field (h : Heap) (c : Ptr)
    (v : wafConfig (List wafRule)) (hv : h.validConfig c = true)
    (hs : h.snapshot c = some v) :
    (∀ limit, returnsConfig (wafConfig.WithRequestBodyBytesLimit h c limit)
      { v with requestBodyLimit := limit }) ∧
    (∀ limit, returnsConfig (wafConfig.WithRequestBodyInMemoryBytesLimit h c limit)
      { v with requestBodyInMemoryLimit := limit }) ∧
    (∀ limit, returnsConfig (wafConfig.WithResponseBodyBytesLimit h c limit)
      { v with responseBodyLimit := limit }) ∧
    (∀ mimeTypes, returnsConfig (wafConfig.WithResponseBodyMimeTypes h c mimeTypes)
      { v with responseBodyMimeTypes := mimeTypes }) ∧
    returnsConfig (wafConfig.WithContentInjection h c) { v with contentInjection := true } ∧
    returnsConfig (wafConfig.WithRequestBodyAccess h c) { v with requestBodyAccess := true } ∧
    returnsConfig (wafConfig.WithResponseBodyAccess h c) { v with responseBodyAccess := true } ∧
    (∀ a, returnsConfig (wafConfig.WithAuditLog h c (AuditLogConfig.auditLogConfig a))
      { v with auditLog := a }) ∧
    (∀ logger, returnsConfig (wafConfig.WithDebugLogger h c logger)
      { v with debugLogger := logger }) ∧
    (∀ logger, returnsConfig (wafConfig.WithErrorLogger h c logger)
      { v with errorLogger := logger }) ∧
    (∀ fs, returnsConfig (wafConfig.WithRootFS h c fs) { v with fsRoot := fs }) := by
  obtain ⟨cfg, hc, hvs⟩ := Heap.validConfig_obj h c hv
  have hvdef : v = cfg.withRules (h.elems cfg.rules) := by
    simp only [Heap.snapshot, hc, Option.map_some', Option.some.injEq] at hs
    exact hs.symm
  subst hvdef
  have setter : ∀ (f : wafConfig Slice → wafConfig Slice)
      (g : wafConfig (List wafRule) → wafConfig (List wafRule)),
      (∀ x, (f x).rules = x.rules) →
      (∀ x (E : List wafRule), (f x).withRules E = g (x.withRules E)) →
      returnsConfig (match wafConfig.clone h c with
        | (h1, none) => (h1, none)
        | (h1, some ret) => h1.assign ret f) (g (cfg.withRules (h.elems cfg.rules))) := by
    intro f g hf hfg
    obtain ⟨h', he, _, hsn⟩ := wafConfig.clone_assign_spec h c cfg hc hvs f g hf hfg
    exact ⟨h.wafConfigs.length, by rw [he], by rw [he]; exact hsn⟩
  exact ⟨fun n => setter _ (fun w => { w with requestBodyLimit := n }) (fun _ => rfl)
      (fun _ _ => rfl),
    fun n => setter _ (fun w => { w with requestBodyInMemoryLimit := n }) (fun _ => rfl)
      (fun _ _ => rfl),
    fun n => setter _ (fun w => { w with responseBodyLimit := n }) (fun _ => rfl)
      (fun _ _ => rfl),
    fun m => setter _ (fun w => { w with responseBodyMimeTypes := m }) (fun _ => rfl)
      (fun _ _ => rfl),
    setter _ (fun w => { w with contentInjection := true }) (fun _ => rfl) (fun _ _ => rfl),
    setter _ (fun w => { w with requestBodyAccess := true }) (fun _ => rfl) (fun _ _ => rfl),
    setter _ (fun w => { w with responseBodyAccess := true }) (fun _ => rfl) (fun _ _ => rfl),
    fun a => setter _ (fun w => { w with auditLog := a }) (fun _ => rfl) (fun _ _ => rfl),
    fun l => setter _ (fun w => { w with debugLogger := l }) (fun _ => rfl) (fun _ _ => rfl),
    fun l => setter _ (fun w => { w with errorLogger := l }) (fun _ => rfl) (fun _ _ => rfl),
    fun r => setter _ (fun w => { w with fsRoot := r }) (fun _ => rfl) (fun _ _ => rfl)⟩

/-- Witness of C5 on `sampleHeap`: the config at address 1 denotes
`sampleValue`, and `WithRequestBodyBytesLimit(1024)`, `WithContentInjection()`
and `WithResponseBodyMimeTypes` return it with that one field changed. -/
theorem wafConfig_setter_changes_only_its_field_witness :
    sampleHeap.validConfig 1 = true ∧ sampleHeap.snapshot 1 = some sampleValue ∧
    returnsConfig (wafConfig.WithRequestBodyBytesLimit sampleHeap 1 1024)
      { sampleValue with requestBodyLimit := 1024 } ∧
    returnsConfig (wafConfig.WithContentInjection sampleHeap 1)
      { sampleValue with contentInjection := true } ∧
    returnsConfig (wafConfig.WithResponseBodyMimeTypes sampleHeap 1 ["text/html"])
      { sampleValue with responseBodyMimeTypes := ["text/html"] } :=
  have h := wafConfig_setter_changes_only_its_field sampleHeap 1 sampleValue (by decide)
    (by decide)
  ⟨by decide, by decide, h.1 1024, h.2.2.2.2.1, h.2.2.2.1 ["text/html"]⟩

/-- C6: `WithRules`, `WithDirectives` and `WithDirectivesFromFile` add to the
end of the rule list, in order. For every heap and valid `*wafConfig` `c`
denoting `v`, `WithRules(r1, ..., rn)` returns a config that denotes `v` with
the rule list `v.rules` followed by the entries `wafRule{rule: ri}` in
argument order, `WithDirectives(s)` one with `v.rules` followed by
`wafRule{str: s}`, `WithDirectivesFromFile(p)` one with `v.rules` followed by
`wafRule{file: p}`, every other field as in `v`; and `WithRules()` returns `c`
itself and leaves the heap as it is. -/
theorem wafConfig_WithRules_appends_in_order (grow : Nat → Nat) (h : Heap) (c : Ptr)
    (v : wafConfig (List wafRule)) (hv : h.validConfig c = true)
    (hs : h.snapshot c = some v) :
    (∀ rules, returnsConfig (wafConfig.WithRules grow h c rules)
      { v with rules := v.rules ++
          rules.map (fun r => ({ rule := r, str := "", file := "" } : wafRule)) }) ∧
    (∀ directives, returnsConfig (wafConfig.WithDirectives grow h c directives)
      { v with rules := v.rules ++ [{ rule := none, str := directives, file := "" }] }) ∧
    (∀ path, returnsConfig (wafConfig.WithDirectivesFromFile grow h c path)
      { v with rules := v.rules ++ [{ rule := none, str := "", file := path }] }) ∧
    wafConfig.WithRules grow h c [] = (h, some c) := by
  obtain ⟨cfg, hc, hvs⟩ := Heap.validConfig_obj h c hv
  have hvdef : v = cfg.withRules (h.elems cfg.rules) := by
    simp only [Heap.snapshot, hc, Option.map_some', Option.some.injEq] at hs
    exact hs.symm
  have adder : ∀ x : wafRule,
      returnsConfig (match wafConfig.clone h c with
        | (h1, none) => (h1, none)
        | (h1, some ret) => wafConfig.appendRule grow h1 ret x)
        { v with rules := v.rules ++ [x] } := by
    intro x
    obtain ⟨h', he, _, hsn⟩ := wafConfig.appendRule_after_clone grow h c cfg hc hvs x
    refine ⟨h.wafConfigs.length, by rw [he], ?_⟩
    rw [he, hvdef]
    exact hsn
  refine ⟨?_, fun d => adder _, fun p => adder _, rfl⟩
  intro rules
  by_cases hne : rules = []
  · subst hne
    refine ⟨c, rfl, ?_⟩
    simp only [wafConfig.WithRules, List.length_nil, beq_self_eq_true, if_true, hs,
      List.map_nil, List.append_nil]
  · obtain ⟨h', he, _, hsn⟩ := wafConfig.WithRules_spec grow h c cfg hc hvs rules hne
    refine ⟨h.wafConfigs.length, by rw [he], ?_⟩
    rw [he, hvdef]
    exact hsn

/-- Witness of C6 on `sampleHeap`: after the one directive of the config at
address 1 come the two rules given to `WithRules`, the directive given to
`WithDirectives`, the file given to `WithDirectivesFromFile`. -/
theorem wafConfig_WithRules_appends_in_order_witness :
    sampleHeap.validConfig 1 = true ∧ sampleHeap.snapshot 1 = some sampleValue ∧
    returnsConfig (wafConfig.WithRules (fun n => n) sampleHeap 1 [some 7, some 3])
      { sampleValue with rules :=
          [{ rule := none, str := "SecRuleEngine On", file := "" },
           { rule := some 7, str := "", file := "" },
           { rule := some 3, str := "", file := "" }] } ∧
    returnsConfig (wafConfig.WithDirectives (fun n => n) sampleHeap 1 "SecAction id:1")
      { sampleValue with rules :=
          [{ rule := none, str := "SecRuleEngine On", file := "" },
           { rule := none, str := "SecAction id:1", file := "" }] } ∧
    returnsConfig (wafConfig.WithDirectivesFromFile (fun n => n) sampleHeap 1 "crs.conf")
      { sampleValue with rules :=
          [{ rule := none, str := "SecRuleEngine On", file := "" },
           { rule := none, str := "", file := "crs.conf" }] } ∧
    wafConfig.WithRules (fun n => n) sampleHeap 1 [] = (sampleHeap, some 1) :=
  have h := wafConfig_WithRules_appends_in_order (fun n => n) sampleHeap 1 sampleValue
    (by decide) (by decide)
  ⟨by decide, by decide, h.1 [some 7, some 3], h.2.1 "SecAction id:1", h.2.2.1 "crs.conf",
    h.2.2.2⟩

/-- C7 (the code departs from the claim): on the config returned by
`NewAuditLogConfig()`, at address 0 of the heap, `LogRelevantOnly()` returns
the clone at address 1 with `relevantOnly` still false, and leaves the
receiver at address 0 with `relevantOnly` true. -/
theorem auditLogConfig_LogRelevantOnly_sets_receiver_not_result :
    NewAuditLogConfig Heap.empty =
      ({ wafConfigs := []
         auditLogConfigs := [{ relevantOnly := false, parts := [], logger := none }]
         ruleArrays := [] }, 0) ∧
    auditLogConfig.LogRelevantOnly (NewAuditLogConfig Heap.empty).1 0 =
      ({ wafConfigs := []
         auditLogConfigs := [{ relevantOnly := true, parts := [], logger := none },
                             { relevantOnly := false, parts := [], logger := none }]
         ruleArrays := [] }, some 1) :=
  ⟨rfl, rfl⟩

end coraza

namespace coraza

/-- What `LogRelevantOnly` does on any allocated `*auditLogConfig`: the clone
it returns is a copy of the receiver as it was, and `relevantOnly` is set in
the receiver. -/
theorem auditLogConfig.LogRelevantOnly_eq (h : Heap) (c : Ptr) (cfg : auditLogConfig)
    (hc : h.auditLogConfigs[c]? = some cfg) :
    auditLogConfig.LogRelevantOnly h c =
      ({ h with auditLogConfigs :=
          (h.auditLogConfigs ++ [cfg]).set c { cfg with relevantOnly := true } },
       some h.auditLogConfigs.length) := by
  have hlt : c < h.auditLogConfigs.length := by
    by_contra hlt
    have hnone : h.auditLogConfigs[c]? = none := List.getElem?_eq_none (Nat.le_of_not_lt hlt)
    rw [hnone] at hc
    cases hc
  simp [auditLogConfig.LogRelevantOnly, auditLogConfig.clone, hc, Heap.assignAuditLog,
    List.getElem?_append_left hlt]

end coraza

namespace actions

/-! ## `noauditlog` and the `log` flag -/

/-- On every rule `NoAuditlog.Init` returns a nil error and the rule with the
flag `Log` lowered, the other attributes, `AuditLog` among them, as they
were. -/
theorem NoAuditlog.Init_eq (a : NoAuditlog) (r : Rule) (data : String) :
    a.Init r data = (a, { r with Log := false }, none) := rfl

/-- C11 (the code departs from the claim): on `sampleRule`, `Log.Init`
leaves `Log = true`, and `NoAuditlog.Init` on the rule it leaves returns the
rule with `Log = false` and the audit log flag still raised: the value of
`Log` after `NoAuditlog.Init` is not its value before. -/
theorem NoAuditlog_Init_lowers_Log_flag :
    (Log.Init {} sampleRule "").2.1.Log = true ∧
    (NoAuditlog.Init {} (Log.Init {} sampleRule "").2.1 "").2.1.Log = false ∧
    (NoAuditlog.Init {} (Log.Init {} sampleRule "").2.1 "").2.1.AuditLog = true ∧
    (NoAuditlog.Init {} (Log.Init {} sampleRule "").2.1 "").2.1.Log ≠
      (Log.Init {} sampleRule "").2.1.Log := by
  refine ⟨rfl, rfl, rfl, ?_⟩
  decide

end actions

namespace testing

/-! ## `RunPhases` and the logging phase -/

/-- The calls of a transaction after one more call. -/
theorem Transaction.call_calls (tx : Transaction) (c : Call) :
    (tx.call c).calls = tx.calls ++ [c] := rfl

/-- The calls left by a loop that adds one header per entry of a map. -/
theorem foldl_call_calls (f : String × String → Call) (l : List (String × String))
    (tx : Transaction) :
    (l.foldl (fun tx kv => tx.call (f kv)) tx).calls = tx.calls ++ l.map f := by
  induction l generalizing tx with
  | nil => simp
  | cons kv rest ih =>
    simp only [List.foldl_cons, ih, List.map_cons, Transaction.call_calls]
    simp

/-- On a transaction that has not been through logging, `RunPhases` calls
`ProcessLogging` exactly when it returns a nil error, that is when neither
`ProcessRequestBody` nor `ProcessResponseBody` returned an error. -/
theorem RunPhases_logging_iff_no_error (e : Engine) (t : test)
    (h : Call.ProcessLogging ∉ t.transaction.calls) :
    Call.ProcessLogging ∈ (t.RunPhases e).1.transaction.calls ↔ (t.RunPhases e).2 = none := by
  have hreq := foldl_call_calls (fun kv => Call.AddRequestHeader kv.1 kv.2)
  have hres := foldl_call_calls (fun kv => Call.AddResponseHeader kv.1 kv.2)
  unfold test.RunPhases
  simp only []
  split
  · simp [hreq, Transaction.call_calls, h]
  · split
    · simp [hreq, hres, Transaction.call_calls, h]
    · simp [Transaction.call_calls]

/-- The transaction left by a loop that adds one header per entry of a map. -/
theorem foldl_call_eq (f : String × String → Call) (l : List (String × String))
    (tx : Transaction) :
    l.foldl (fun tx kv => tx.call (f kv)) tx = { calls := tx.calls ++ l.map f } := by
  have h := foldl_call_calls f l tx
  cases hres : l.foldl (fun tx kv => tx.call (f kv)) tx with
  | mk calls =>
    rw [hres] at h
    simp only at h
    rw [h]

/-- `RunPhases` in closed form: the outcome is decided by the errors of the
two body phases, and `ProcessLogging` is called in the last case only. -/
theorem RunPhases_eq (e : Engine) (t : test) :
    t.RunPhases e =
      match e.ProcessRequestBody t.callsAtRequestBody with
      | some err => ({ t with transaction := { calls := t.callsAtRequestBody } }, some err)
      | none =>
        match e.ProcessResponseBody t.callsAtResponseBody with
        | some err => ({ t with transaction := { calls := t.callsAtResponseBody } }, some err)
        | none =>
          ({ t with transaction := { calls := t.callsAtResponseBody ++ [Call.ProcessLogging] } },
            none) := by
  have hreq : (((t.RequestHeaders.foldl (fun tx kv => tx.call (Call.AddRequestHeader kv.1 kv.2))
      ((t.transaction.call (Call.ProcessConnection t.RequestAddress t.RequestPort
        t.ServerAddress t.ServerPort)).call
        (Call.ProcessUri t.RequestUri t.RequestMethod t.RequestProtocol))).call
      Call.ProcessRequestHeaders).call Call.ProcessRequestBody) =
      { calls := t.callsAtRequestBody } := by
    rw [foldl_call_eq (fun kv => Call.AddRequestHeader kv.1 kv.2)]
    simp [Transaction.call, test.callsAtRequestBody]
  have hres : (((t.ResponseHeaders.foldl
      (fun tx kv => tx.call (Call.AddResponseHeader kv.1 kv.2))
      ({ calls := t.callsAtRequestBody } : Transaction)).call
      (Call.ProcessResponseHeaders t.ResponseCode t.ResponseProtocol)).call
      Call.ProcessResponseBody) = { calls := t.callsAtResponseBody } := by
    rw [foldl_call_eq (fun kv => Call.AddResponseHeader kv.1 kv.2)]
    simp [Transaction.call, test.callsAtResponseBody]
  unfold test.RunPhases
  simp only [hreq, hres]
  rfl

/-- C12 (the claim as stated fails): on the test made by `newTest`, when
`ProcessRequestBody` returns an error `RunPhases` returns it after the calls
up to `ProcessRequestBody`, and when `ProcessResponseBody` returns an error
`RunPhases` returns it after the calls up to `ProcessResponseBody`; in both
runs `ProcessLogging` is not called. When neither fails it is the last
call. -/
theorem RunPhases_returns_error_without_logging :
    ((newTest "t" 0).RunPhases requestBodyFails).2 = some "request body: read error" ∧
    ((newTest "t" 0).RunPhases requestBodyFails).1.transaction.calls =
      [Call.ProcessConnection "127.0.0.1" 80 "" 0, Call.ProcessUri "/" "GET" "HTTP/1.1",
        Call.ProcessRequestHeaders, Call.ProcessRequestBody] ∧
    Call.ProcessLogging ∉ ((newTest "t" 0).RunPhases requestBodyFails).1.transaction.calls ∧
    ((newTest "t" 0).RunPhases responseBodyFails).2 = some "response body: read error" ∧
    ((newTest "t" 0).RunPhases responseBodyFails).1.transaction.calls =
      [Call.ProcessConnection "127.0.0.1" 80 "" 0, Call.ProcessUri "/" "GET" "HTTP/1.1",
        Call.ProcessRequestHeaders, Call.ProcessRequestBody,
        Call.ProcessResponseHeaders 0 "", Call.ProcessResponseBody] ∧
    Call.ProcessLogging ∉ ((newTest "t" 0).RunPhases responseBodyFails).1.transaction.calls ∧
    ((newTest "t" 0).RunPhases bodiesSucceed).1.transaction.calls =
      [Call.ProcessConnection "127.0.0.1" 80 "" 0, Call.ProcessUri "/" "GET" "HTTP/1.1",
        Call.ProcessRequestHeaders, Call.ProcessRequestBody,
        Call.ProcessResponseHeaders 0 "", Call.ProcessResponseBody, Call.ProcessLogging] := by
  refine ⟨rfl, rfl, ?_, rfl, rfl, ?_, rfl⟩
  · decide
  · decide

/-- C12 (amended): `RunPhases` passes the transaction through logging exactly
on the executions in which neither `ProcessRequestBody` nor
`ProcessResponseBody` returns an error. It returns nil if and only if both
return nil, and then `ProcessLogging` is the last call it makes; when
`ProcessRequestBody` returns an error, or `ProcessResponseBody` does after
it, `RunPhases` returns that error at once; and the number of
`ProcessLogging` calls on the transaction grows by one when `RunPhases`
returns nil and stays as it was when it returns an error. -/
theorem RunPhases_logs_iff_no_body_error (e : Engine) (t : test) :
    ((t.RunPhases e).2 = none ↔
      (e.ProcessRequestBody t.callsAtRequestBody = none ∧
        e.ProcessResponseBody t.callsAtResponseBody = none)) ∧
    ((t.RunPhases e).2 = none →
      (t.RunPhases e).1.transaction.calls = t.callsAtResponseBody ++ [Call.ProcessLogging]) ∧
    (∀ err, e.ProcessRequestBody t.callsAtRequestBody = some err →
      t.RunPhases e = ({ t with transaction := { calls := t.callsAtRequestBody } }, some err)) ∧
    (∀ err, e.ProcessRequestBody t.callsAtRequestBody = none →
      e.ProcessResponseBody t.callsAtResponseBody = some err →
      t.RunPhases e = ({ t with transaction := { calls := t.callsAtResponseBody } }, some err)) ∧
    (t.RunPhases e).1.transaction.calls.count Call.ProcessLogging =
      t.transaction.calls.count Call.ProcessLogging +
        (if (t.RunPhases e).2 = none then 1 else 0) := by
  have hcount1 : t.callsAtRequestBody.count Call.ProcessLogging =
      t.transaction.calls.count Call.ProcessLogging := by
    simp [test.callsAtRequestBody, List.count_append, List.count_eq_zero]
  have hcount2 : t.callsAtResponseBody.count Call.ProcessLogging =
      t.transaction.calls.count Call.ProcessLogging := by
    simp [test.callsAtResponseBody, List.count_append, List.count_eq_zero, hcount1]
  rw [RunPhases_eq]
  cases hreq : e.ProcessRequestBody t.callsAtRequestBody with
  | some err => simp [hcount1]
  | none =>
    cases hres : e.ProcessResponseBody t.callsAtResponseBody with
    | some err => simp [hcount2]
    | none => simp [hcount2, List.count_append]

/-- Witness of C12 (amended), on the test made by `newTest` with one request
header: when both body phases succeed `RunPhases` returns nil and the calls
end with `ProcessLogging`; when `ProcessRequestBody` fails it returns the
error after the calls up to `ProcessRequestBody`. -/
theorem RunPhases_logs_iff_no_body_error_witness :
    ({ newTest "t" 0 with RequestHeaders := [("Host", "example.com")] }.RunPhases
        bodiesSucceed).2 = none ∧
    ({ newTest "t" 0 with RequestHeaders := [("Host", "example.com")] }.RunPhases
        bodiesSucceed).1.transaction.calls =
      [Call.ProcessConnection "127.0.0.1" 80 "" 0, Call.ProcessUri "/" "GET" "HTTP/1.1",
        Call.AddRequestHeader "Host" "example.com", Call.ProcessRequestHeaders,
        Call.ProcessRequestBody, Call.ProcessResponseHeaders 0 "", Call.ProcessResponseBody,
        Call.ProcessLogging] ∧
    ({ newTest "t" 0 with RequestHeaders := [("Host", "example.com")] }.RunPhases
        requestBodyFails) =
      ({ newTest "t" 0 with
          RequestHeaders := [("Host", "example.com")]
          transaction := { calls :=
            [Call.ProcessConnection "127.0.0.1" 80 "" 0, Call.ProcessUri "/" "GET" "HTTP/1.1",
              Call.AddRequestHeader "Host" "example.com", Call.ProcessRequestHeaders,
              Call.ProcessRequestBody] } },
        some "request body: read error") :=
  have h := RunPhases_logs_iff_no_body_error bodiesSucceed
    { newTest "t" 0 with RequestHeaders := [("Host", "example.com")] }
  have h' := RunPhases_logs_iff_no_body_error requestBodyFails
    { newTest "t" 0 with RequestHeaders := [("Host", "example.com")] }
  ⟨h.1.2 ⟨rfl, rfl⟩, h.2.1 (h.1.2 ⟨rfl, rfl⟩), h'.2.2.1 "request body: read error" rfl⟩

end testing

namespace operators

/-! ## `rx` on a transaction that is not capturing -/

/-- The boolean returned by `rx.Evaluate` does not depend on the transaction:
it is true exactly when the submatch list is not empty. -/
theorem rx.Evaluate_fst (o : rx) (tx : TransactionState) (value : String) :
    (o.Evaluate tx value).1 = !((o.re value).length == 0) := by
  unfold rx.Evaluate
  by_cases hlen : (o.re value).length = 0
  · simp [hlen]
  · by_cases hcap : tx.Capturing = true <;> simp [hlen, hcap]

/-- C13: when `tx.Capturing()` is false, `rx.Evaluate` leaves the
transaction as it is, so no `CaptureField` call is made; the boolean it
returns is true exactly when the regexp matches the value (the submatch list
is not empty), and it is the boolean returned for any other transaction, a
capturing one in particular. -/
theorem rx_Evaluate_not_capturing_makes_no_capture (o : rx) (tx : TransactionState)
    (value : String) (hcap : tx.Capturing = false) :
    (o.Evaluate tx value).2 = tx ∧
    (o.Evaluate tx value).2.captured = tx.captured ∧
    ((o.Evaluate tx value).1 = true ↔ o.re value ≠ []) ∧
    ∀ tx' : TransactionState, tx'.Capturing = true →
      (o.Evaluate tx' value).1 = (o.Evaluate tx value).1 := by
  have hstate : (o.Evaluate tx value).2 = tx := by
    unfold rx.Evaluate
    by_cases hlen : (o.re value).length = 0
    · simp [hlen]
    · simp [hlen, hcap]
  refine ⟨hstate, by rw [hstate], ?_, ?_⟩
  · rw [rx.Evaluate_fst]
    cases o.re value <;> simp
  · intro tx' _
    rw [rx.Evaluate_fst, rx.Evaluate_fst]

/-- Witness of C13 with the regexp `(a)(b)(c)(d)(e)(f)(g)(h)(i)`: on a
transaction that is not capturing and holds one earlier capture, the value
`abcdefghi` matches, the value `xyz` does not, and the capture list is left as
it was. -/
theorem rx_Evaluate_not_capturing_makes_no_capture_witness :
    TransactionState.Capturing { capturing := false, captured := [(0, "old")] } = false ∧
    nineGroups.Evaluate { capturing := false, captured := [(0, "old")] } "abcdefghi" =
      (true, { capturing := false, captured := [(0, "old")] }) ∧
    (nineGroups.Evaluate { capturing := false, captured := [(0, "old")] } "xyz").1 = false ∧
    (nineGroups.Evaluate { capturing := true, captured := [] } "abcdefghi").1 =
      (nineGroups.Evaluate { capturing := false, captured := [(0, "old")] } "abcdefghi").1 :=
  have h := rx_Evaluate_not_capturing_makes_no_capture nineGroups
    { capturing := false, captured := [(0, "old")] } "abcdefghi" rfl
  have h' := rx_Evaluate_not_capturing_makes_no_capture nineGroups
    { capturing := false, captured := [(0, "old")] } "xyz" rfl
  ⟨rfl, Prod.ext (h.2.2.1.2 (by decide)) h.1,
    by
      cases hres : (nineGroups.Evaluate { capturing := false, captured := [(0, "old")] }
        "xyz").1 with
      | false => rfl
      | true => exact absurd (h'.2.2.1.1 hres) (by decide),
    h.2.2.2 { capturing := true, captured := [] } rfl⟩

end operators
